import Mathlib

/-!
Verification of the time-series query normalization and result-reshaping
engine `SnubaTSDB` (src/sentry/tsdb/snuba.py).

The Python code works on dynamically typed nested dictionaries.  We embed:
  * scalar key values (ids, tag values, timestamps) as `PVal`;
  * leaf values of result trees (aggregate numbers, topK lists) as `LeafVal`;
  * nested result dictionaries as `PTree` (association lists in insertion
    order, mirroring Python dict ordering);
  * the caller's `keys` argument (flat sequence, set, mapping, or anything
    else) as `KeysArg`, and the dynamic value passed to `trim` as `PyKeys`.
Fallible Python code (exceptions: KeyError, TypeError, ValueError,
IndexError) is embedded with `Option`, `none` standing for a raised
exception propagating out of the call.
-/

/-- A scalar Python value used as a dictionary key or collection element:
an int (ids, timestamps) or a string (tag values, column aliases). -/
inductive PVal where
  | vint (n : Int)
  | vstr (s : String)
deriving DecidableEq

/-- A Python value sitting at a leaf of a result tree: a number (aggregate
value; Python floats produced here are exact small integers and are embedded
by their integer value), a string, or a list (topK results). -/
inductive LeafVal where
  | num (n : Int)
  | str (s : String)
  | items (xs : List PVal)
deriving DecidableEq

/-- A nested Python result dictionary: either a leaf value or a dict from
scalar keys to subtrees, kept in insertion order. -/
inductive PTree where
  | leaf (v : LeafVal)
  | node (entries : List (PVal × PTree))

/-- Python `d.get(k)` / `d[k]` on an association-list dictionary. -/
def alookup {κ β : Type} [DecidableEq κ] : List (κ × β) → κ → Option β
  | [], _ => none
  | p :: rest, k => if p.1 = k then some p.2 else alookup rest k

/-- Python `x in l` for a list of scalar values. -/
def memP (l : List PVal) (x : PVal) : Bool := l.any (fun y => decide (y = x))

/-- Python truthiness of a leaf value (`0`, `""` and `[]` are falsy). -/
def LeafVal.truthy : LeafVal → Bool
  | .num n => decide (n ≠ 0)
  | .str s => decide (s ≠ "")
  | .items xs => !xs.isEmpty

/-- Python truthiness of a tree (a dict is truthy iff non-empty). -/
def PTree.truthy : PTree → Bool
  | .leaf v => v.truthy
  | .node es => !es.isEmpty

/-- The caller's `keys` argument of the TSDB methods, as classified by
`flatten_keys`: a `Mapping`, an ordered `Sequence`, an unordered `Set`
(embedded as a list of its elements in iteration order), or a value of any
other, unsupported type. -/
inductive KeysArg where
  | mapping (m : List (PVal × List PVal))
  | seq (ks : List PVal)
  | set (ks : List PVal)
  | other

/-- The dynamic shape of the `keys` value consumed by `trim`: a flat
collection or a primary-to-secondary mapping (`trim` recursion passes the
mapping's value lists, which behave as flat collections). -/
inductive PyKeys where
  | flat (ks : List PVal)
  | nested (m : List (PVal × List PVal))

/-- The `keys` argument as seen by `trim` (which receives it unchanged). -/
def KeysArg.toPyKeys : KeysArg → PyKeys
  | .mapping m => .nested m
  | .seq ks => .flat ks
  | .set ks => .flat ks
  | .other => .flat []

/-- Number of primary keys, Python `len(keys)`. -/
def KeysArg.len : KeysArg → Nat
  | .mapping m => m.length
  | .seq ks => ks.length
  | .set ks => ks.length
  | .other => 0

/-- Python truthiness of the `keys` argument (`if keys:`). -/
def KeysArg.isNonempty : KeysArg → Bool
  | .mapping m => !m.isEmpty
  | .seq ks => !ks.isEmpty
  | .set ks => !ks.isEmpty
  | .other => true

/-- First-occurrence deduplication; our fixed iteration order for Python's
`set(...)` / `set.union(...)`, whose element order is unspecified. -/
def pyDedup {α : Type} [DecidableEq α] (l : List α) : List α :=
  l.foldl (fun acc x => if x ∈ acc then acc else acc ++ [x]) []

/-- `SnubaTSDB.flatten_keys`: normalizes the accepted key formats.  A
mapping yields `(list(keys()), union of the value collections)` (the union
via Python sets, deduplicated); a flat sequence or set yields
`(keys, None)`; any other type raises `ValueError` (`none`). -/
def flatten_keys : KeysArg → Option (List PVal × Option (List PVal))
  | .mapping m =>
    some (m.map Prod.fst, some (if m.isEmpty then [] else pyDedup (m.map Prod.snd).flatten))
  | .seq ks => some (ks, none)
  | .set ks => some (ks, none)
  | .other => none

/-- Snuba dataset identifiers used by the registry. -/
inductive Dataset where
  | events
  | transactions
  | issuePlatform
  | outcomes
  | outcomesRaw
deriving DecidableEq

/-- The model-specific extra filter conditions appearing in the registry,
embedded symbolically (their contents are opaque to this layer); `caller i`
stands for an opaque caller-supplied condition. -/
inductive Cond where
  | events_type_condition
  | search_issues_profile_condition
  | reason_eq (reason : String)
  | outcome_in_total_received
  | outcome_eq_rate_limited
  | outcome_eq_filtered
  | outcomes_category_condition
  | caller (i : Nat)
deriving DecidableEq

/-- `SnubaModelQuerySettings`: per-model query settings. -/
structure SnubaModelQuerySettings where
  dataset : Dataset
  groupby : String
  aggregate : Option String
  conditions : List Cond
  selected_columns : Option (List (List String))
deriving DecidableEq

/-- The TSDB models registered in `model_query_settings`.  The
`filtered_by_reason` constructor stands for the family of models generated
from the external reason-to-model table `FILTER_STAT_KEYS_TO_VALUES`
(`project_filter_model_query_settings`), one model per reason string; the
table's contents live outside this component, but the settings attached to
each generated entry are given verbatim in the source. -/
inductive TSDBModel where
  | project
  | group
  | group_performance
  | group_profiling
  | release
  | users_affected_by_group
  | users_affected_by_perf_group
  | users_affected_by_profile_group
  | users_affected_by_project
  | frequent_environments_by_group
  | frequent_releases_by_group
  | frequent_issues_by_project
  | organization_total_received
  | organization_total_rejected
  | organization_total_blacklisted
  | project_total_received
  | project_total_rejected
  | project_total_blacklisted
  | key_total_received
  | key_total_rejected
  | key_total_blacklisted
  | filtered_by_reason (reason : String)
deriving DecidableEq

/-- The `arrayJoin` selected-columns entry used by the perf-group models. -/
def arrayJoinGroupIds : List (List String) := [["arrayJoin", "group_ids", "group_id"]]

/-- `SnubaTSDB.model_query_settings`: the merged registry
(`project_filter_model_query_settings` + `outcomes_partial_query_settings`
+ `non_outcomes_query_settings`).  Every constructor of `TSDBModel` is a
registered model, so the lookup is total here; `get_data`'s unsupported
model branch is unreachable for these models. -/
def model_query_settings : TSDBModel → SnubaModelQuerySettings
  | .project => ⟨.events, "project_id", none, [.events_type_condition], none⟩
  | .group => ⟨.events, "group_id", none, [.events_type_condition], none⟩
  | .group_performance => ⟨.transactions, "group_id", none, [], some arrayJoinGroupIds⟩
  | .group_profiling =>
    ⟨.issuePlatform, "group_id", none, [.search_issues_profile_condition], none⟩
  | .release => ⟨.events, "tags[sentry:release]", none, [.events_type_condition], none⟩
  | .users_affected_by_group =>
    ⟨.events, "group_id", some "tags[sentry:user]", [.events_type_condition], none⟩
  | .users_affected_by_perf_group =>
    ⟨.transactions, "group_id", some "tags[sentry:user]", [], some arrayJoinGroupIds⟩
  | .users_affected_by_profile_group =>
    ⟨.issuePlatform, "group_id", some "tags[sentry:user]",
      [.search_issues_profile_condition], none⟩
  | .users_affected_by_project =>
    ⟨.events, "project_id", some "tags[sentry:user]", [.events_type_condition], none⟩
  | .frequent_environments_by_group =>
    ⟨.events, "group_id", some "environment", [.events_type_condition], none⟩
  | .frequent_releases_by_group =>
    ⟨.events, "group_id", some "tags[sentry:release]", [.events_type_condition], none⟩
  | .frequent_issues_by_project =>
    ⟨.events, "project_id", some "group_id", [.events_type_condition], none⟩
  | .organization_total_received =>
    ⟨.outcomes, "org_id", some "quantity",
      [.outcome_in_total_received, .outcomes_category_condition], none⟩
  | .organization_total_rejected =>
    ⟨.outcomes, "org_id", some "quantity",
      [.outcome_eq_rate_limited, .outcomes_category_condition], none⟩
  | .organization_total_blacklisted =>
    ⟨.outcomes, "org_id", some "quantity",
      [.outcome_eq_filtered, .outcomes_category_condition], none⟩
  | .project_total_received =>
    ⟨.outcomes, "project_id", some "quantity",
      [.outcome_in_total_received, .outcomes_category_condition], none⟩
  | .project_total_rejected =>
    ⟨.outcomes, "project_id", some "quantity",
      [.outcome_eq_rate_limited, .outcomes_category_condition], none⟩
  | .project_total_blacklisted =>
    ⟨.outcomes, "project_id", some "quantity",
      [.outcome_eq_filtered, .outcomes_category_condition], none⟩
  | .key_total_received =>
    ⟨.outcomes, "key_id", some "quantity",
      [.outcome_in_total_received, .outcomes_category_condition], none⟩
  | .key_total_rejected =>
    ⟨.outcomes, "key_id", some "quantity",
      [.outcome_eq_rate_limited, .outcomes_category_condition], none⟩
  | .key_total_blacklisted =>
    ⟨.outcomes, "key_id", some "quantity",
      [.outcome_eq_filtered, .outcomes_category_condition], none⟩
  | .filtered_by_reason r =>
    ⟨.outcomes, "project_id", some "quantity",
      [.reason_eq r, .outcome_in_total_received, .outcomes_category_condition], none⟩

/-- Insert, in order, a zero-fill entry for every key of `ks` missing from
the dictionary (the `for k in flat_keys[group]: if k not in result: ...`
loop of `zerofill`, which appends in iteration order). -/
def fillKeys (fill : PTree) (entries : List (PVal × PTree)) (ks : List PVal) :
    List (PVal × PTree) :=
  ks.foldl (fun acc k => if (alookup acc k).isSome then acc else acc ++ [(k, fill)]) entries

/-- Apply an `Option`-valued transform to every value of a dictionary,
failing if any application fails (the `for v in result.values():
self.zerofill(v, ...)` loop, where an exception aborts the whole call). -/
def mapValsOpt (f : PTree → Option PTree) :
    List (PVal × PTree) → Option (List (PVal × PTree))
  | [] => some []
  | p :: rest =>
    match f p.2, mapValsOpt f rest with
    | some v', some rest' => some ((p.1, v') :: rest')
    | _, _ => none

/-- `SnubaTSDB.zerofill result groups flat_keys` (arguments reordered for
currying: the map `flat_keys` first, then `groups`, then the tree).
`flat_keys[group]` on a missing group is a `KeyError` (`none`), and
recursing into a non-dict value raises a `TypeError` (`none`); at the last
grouping level missing keys are filled with the scalar `0`, at earlier
levels with an empty dict that the subsequent recursion then fills. -/
def zerofill (fk : List (String × List PVal)) : List String → PTree → Option PTree
  | [] => fun t => some t
  | _g :: gs => fun t =>
    match t with
    | .leaf _ => none
    | .node entries =>
      match alookup fk _g with
      | none => none
      | some ks =>
        let filled := fillKeys (if gs.isEmpty then .leaf (.num 0) else .node []) entries ks
        if gs.isEmpty then some (.node filled)
        else (mapValsOpt (zerofill fk gs) filled).map .node

/-- The per-primary-key scoping used by `trim` on a nested key set:
`keys[rk]` guarded by `rk in keys` (the default is unreachable then). -/
def scopedKeys (m : List (PVal × List PVal)) (k : PVal) : List PVal :=
  (alookup m k).getD []

/-- Python `rk in keys` for the two key shapes `trim` can receive. -/
def PyKeys.mem : PyKeys → PVal → Bool
  | .flat ks, k => memP ks k
  | .nested m, k => memP (m.map Prod.fst) k

/-- One step of `trim` on a single dictionary entry: a `time` level is
never filtered by key (recurse with the same keys); otherwise a key absent
from `keys` is deleted, a present key is kept, recursing with the scoped
secondary keys when `keys` is a mapping and leaving the subtree untouched
when it is flat.  `tr` is the recursive call at the remaining groups. -/
def trimEntry (g : String) (tr : PyKeys → PTree → PTree) (K : PyKeys) (p : PVal × PTree) :
    Option (PVal × PTree) :=
  if g = "time" then some (p.1, tr K p.2)
  else if K.mem p.1 then
    match K with
    | .nested m => some (p.1, tr (.flat (scopedKeys m p.1)) p.2)
    | .flat _ => some (p.1, p.2)
  else none

/-- `SnubaTSDB.trim result groups keys` (groups first for currying).
Non-dict values are left untouched (`isinstance(result, dict)` guard). -/
def trim : List String → PyKeys → PTree → PTree
  | [] => fun _ t => t
  | g :: gs => fun K t =>
    match t with
    | .leaf v => .leaf v
    | .node es => .node (es.filterMap (trimEntry g (trim gs) K))

/-- The entry-list worker of `unnest` (the `for key, val in result.items()`
loop; non-dict values are skipped, a dict value is replaced by its truthy
aggregate-alias entry or recursed into). -/
def unnestEntries (al : PVal) : List (PVal × PTree) → List (PVal × PTree)
  | [] => []
  | (k, .leaf v) :: rest => (k, .leaf v) :: unnestEntries al rest
  | (k, .node ves) :: rest =>
    (match alookup ves al with
     | some av => if av.truthy then (k, av) else (k, .node (unnestEntries al ves))
     | none => (k, .node (unnestEntries al ves))) :: unnestEntries al rest

/-- `SnubaTSDB.unnest result aggregated_as`: replaces any dict value whose
entry at the aggregate alias is truthy (`if val.get(aggregated_as):`) by
that entry, and recurses into every other dict value. -/
def unnest (al : PVal) : PTree → PTree
  | .leaf v => .leaf v
  | .node es => .node (unnestEntries al es)

/-- An element of the `aggregations` list sent to snuba: the main
`[aggregation, model_aggregate, "aggregate"]` triple, or the synthetic
time-bucketing expression of `__manual_group_on_time_aggregation`
(embedded symbolically: the named shortcut functions for 60s/3600s/86400s
rollups, or the generic intDiv/multiply expression). -/
inductive AggExpr where
  | plain (fn : String) (target : Option String) (outAlias : String)
  | rollupShortcut (fn : String) (outAlias : String)
  | rollupGeneric (rollup : Nat) (outAlias : String)
deriving DecidableEq

/-- `SnubaTSDB.__manual_group_on_time_aggregation rollup time_column_alias`. -/
def manual_group_on_time_aggregation (rollup : Nat) (tca : String) : AggExpr :=
  if rollup = 60 then .rollupShortcut "toStartOfMinute" tca
  else if rollup = 3600 then .rollupShortcut "toStartOfHour" tca
  else if rollup = 3600 * 24 then .rollupShortcut "toDate" tca
  else .rollupGeneric rollup tca

/-- Python `int(x)` on a scalar: identity on ints, digit parsing on
strings (a non-numeric string raises `ValueError`, `none`). -/
def pyInt : PVal → Option Int
  | .vint n => some n
  | .vstr s => s.toInt?

/-- The three models whose keys get the `project_key_stats.py` counter-hack
treatment in `get_data` (in the order the source lists them). -/
def key_total_models : List TSDBModel :=
  [.key_total_received, .key_total_blacklisted, .key_total_rejected]

/-- The `keys = list(set(map(lambda x: int(x), keys)))` rewrite at the top
of `get_data`, applied only for the three `key_total_*` models.  Iterating
a mapping iterates its primary keys, so a mapping collapses to a flat list;
iterating a non-iterable raises (`none`); the set's iteration order is
embedded as first-occurrence order. -/
def normalize_key_totals (model : TSDBModel) (keys : KeysArg) : Option KeysArg :=
  if model ∈ key_total_models then
    (match keys with
     | .mapping m => (m.map Prod.fst).mapM pyInt
     | .seq ks => ks.mapM pyInt
     | .set ks => ks.mapM pyInt
     | .other => none).map (fun is => .seq ((pyDedup is).map .vint))
  else some keys

/-- The group-by list assembled by `get_data`: the model's primary column
when grouping on model (the registry always defines it, so the
`model_group is not None` guard always passes), then the time column (or
its synthetic alias for the manual-time models) when grouping on time,
then the aggregate column when the `count()` rewrite fires. -/
def get_data_groupby (model_group : String) (group_on_model group_on_time manual : Bool)
    (aggregation : String) (model_aggregate : Option String) : List String :=
  (if group_on_model then [model_group] else []) ++
  (if group_on_time then [if manual then "time_t" else "time"] else []) ++
  (if aggregation = "count()" then
    (match model_aggregate with | some a => [a] | none => []) else [])

/-- The aggregate target after the `count()` rewrite: `COUNT(column)` is
turned into `COUNT()` (the column moved into the group-by list). -/
def get_data_model_aggregate (aggregation : String) (model_aggregate : Option String) :
    Option String :=
  if aggregation = "count()" ∧ model_aggregate.isSome then none else model_aggregate

/-- The `[[aggregation, model_aggregate, aggregated_as]]` list built by
`get_data` (before the optional manual-time extra expression). -/
def get_data_aggregations (aggregation : String) (model_aggregate : Option String) :
    List AggExpr :=
  [.plain aggregation (get_data_model_aggregate aggregation model_aggregate) "aggregate"]

/-- `keys_map = dict(zip((settings.groupby, settings.aggregate),
flatten_keys(keys)))` with `None` keys and `None` values dropped. -/
def build_keys_map (groupby_col : String) (aggregate_col : Option String)
    (flat : List PVal × Option (List PVal)) : List (String × List PVal) :=
  match aggregate_col, flat.2 with
  | some a, some sec => [(groupby_col, flat.1), (a, sec)]
  | _, _ => [(groupby_col, flat.1)]

/-- Python dict assignment `m[k] = v`: overwrite in place, else append. -/
def dict_set (m : List (String × List PVal)) (k : String) (v : List PVal) :
    List (String × List PVal) :=
  if (alookup m k).isSome then m.map (fun p => if p.1 = k then (k, v) else p)
  else m ++ [(k, v)]

/-- Python `int(x)` truncation toward zero on an exact rational (the float
arithmetic of the limit computation is exact in the value range at hand). -/
def pyTrunc (q : ℚ) : Int := if 0 ≤ q then ⌊q⌋ else -⌊-q⌋

/-- The row limit sent to snuba:
`min(10000, int(len(keys) * ((end - start).total_seconds() / rollup)))`
with `start = series[0]` and `end = series[-1] + rollup`; an empty series
raises `IndexError` (`none`). -/
def get_data_limit (len_keys : Nat) (rollup : Nat) (series : List Int) : Option Int :=
  match series.head?, series.getLast? with
  | some s0, some sl =>
    some (min 10000 (pyTrunc ((len_keys : ℚ) * ((((sl + rollup) - s0 : Int) : ℚ) / (rollup : ℚ)))))
  | _, _ => none

/-- The single backend request assembled per `get_data` call and handed to
the executor `snuba.query` (the `referrer` string, derived from the opaque
model enum value, is omitted). -/
structure SnubaQueryCall where
  dataset : Dataset
  startT : Int
  endT : Int
  groupby : List String
  conditions : List Cond
  filter_keys : List (String × List PVal)
  aggregations : List AggExpr
  rollup : Nat
  limit : Int
  orderby : List String
  is_grouprelease : Bool
  use_cache : Bool
  selected_columns : Option (List (List String))

/-- `SnubaTSDB.get_data`.  External collaborators are parameters: the
backend `executor` stands for `snuba.query`, and the resolved
`(rollup, series)` pair stands for the output of the external
`get_optimal_rollup_series` / `_add_jitter_to_series` utilities (the
original `start`/`end`/`jitter_value` arguments feed only those), while
`requested_rollup` is the caller's raw `rollup` argument, consulted before
resolution for the 10s outcomes special case.  `deepcopy` of the model
conditions is the identity in this pure embedding.  Returns `none` when
the Python code raises. -/
def get_data (executor : SnubaQueryCall → PTree) (model : TSDBModel) (keys0 : KeysArg)
    (requested_rollup : Option Nat) (rollup : Nat) (series : List Int)
    (environment_ids : Option (List PVal)) (aggregation : String)
    (group_on_model : Bool) (group_on_time : Bool)
    (conditions : List Cond) (use_cache : Bool) : Option PTree := do
  let keys ← normalize_key_totals model keys0
  let manual := model = TSDBModel.group_profiling ∨ model = TSDBModel.users_affected_by_profile_group
  let s := model_query_settings model
  let model_dataset :=
    if requested_rollup = some 10 ∧ s.dataset = Dataset.outcomes then Dataset.outcomesRaw
    else s.dataset
  let groupby := get_data_groupby s.groupby group_on_model group_on_time manual aggregation s.aggregate
  let flat ← flatten_keys keys
  let keys_map0 := build_keys_map s.groupby s.aggregate flat
  let keys_map1 :=
    match environment_ids with
    | some envs => dict_set keys_map0 "environment" envs
    | none => keys_map0
  let aggregations :=
    get_data_aggregations aggregation s.aggregate ++
    (if group_on_time ∧ manual then [manual_group_on_time_aggregation rollup "time_t"] else [])
  let s0 ← series.head?
  let sl ← series.getLast?
  let limit ← get_data_limit keys.len rollup series
  let allConds := conditions ++ s.conditions
  let orderby :=
    (if group_on_time then [if manual then "-time_t" else "-time"] else []) ++
    (if group_on_model then [s.groupby] else [])
  let result :=
    if keys.isNonempty then
      let q : SnubaQueryCall :=
        ⟨model_dataset, s0, sl + rollup, groupby, allConds, keys_map1, aggregations,
          rollup, limit, orderby, model = TSDBModel.frequent_releases_by_group, use_cache,
          s.selected_columns⟩
      match s.selected_columns with
      | some cols =>
        if cols.isEmpty then executor { q with selected_columns := none }
        else unnest (.vstr "aggregate") (executor q)
      | none => executor { q with selected_columns := none }
    else .node []
  let keys_map2 :=
    if group_on_time then
      dict_set keys_map1 (if manual then "time_t" else "time") (series.map .vint)
    else keys_map1
  let zf ← zerofill keys_map2 groupby result
  let trimmed := trim groupby keys.toPyKeys zf
  if group_on_time ∧ manual then some (unnest (.vstr "aggregate") trimmed)
  else some trimmed

/-- The singular `environment_id` argument of the facade operations,
wrapped as `[environment_id] if environment_id is not None else None`. -/
def envList : Option PVal → Option (List PVal)
  | some e => some [e]
  | none => none

/-- Sort key used by the facades' `sorted(...)` over `(timestamp, value)`
pairs: tuple comparison starts at the timestamp, and timestamps are ints
(and unique per dict, so the second component is never compared). -/
def timeKey : PVal → Int
  | .vint n => n
  | .vstr _ => 0

/-- Python `sorted` of a dict's `(timestamp, value)` items by timestamp. -/
def sortByTime {β : Type} (l : List (PVal × β)) : List (PVal × β) :=
  l.insertionSort (fun a b => timeKey a.1 ≤ timeKey b.1)

/-- Python `result[k].items()`: the entry list of a dict value (calling it
on a non-dict raises, `none`). -/
def treeItems : PTree → Option (List (PVal × PTree))
  | .node es => some es
  | .leaf _ => none

/-- `SnubaTSDB.get_range`: count (or sum, for outcomes-family models) per
primary key and time bucket, each bucket map converted to a
timestamp-sorted list of pairs. -/
def get_range (executor : SnubaQueryCall → PTree) (model : TSDBModel) (keys : KeysArg)
    (requested_rollup : Option Nat) (rollup : Nat) (series : List Int)
    (environment_ids : Option (List PVal)) (conditions : List Cond) (use_cache : Bool) :
    Option (List (PVal × List (PVal × PTree))) := do
  let s := model_query_settings model
  let aggregate_function := if s.dataset = Dataset.outcomes then "sum" else "count()"
  let r ← get_data executor model keys requested_rollup rollup series environment_ids
      aggregate_function true true conditions use_cache
  match r with
  | .node es => es.mapM (fun p => (treeItems p.2).map (fun its => (p.1, sortByTime its)))
  | .leaf _ => none

/-- `SnubaTSDB.get_distinct_counts_series`: `uniq` per key and bucket. -/
def get_distinct_counts_series (executor : SnubaQueryCall → PTree) (model : TSDBModel)
    (keys : KeysArg) (requested_rollup : Option Nat) (rollup : Nat) (series : List Int)
    (environment_id : Option PVal) : Option (List (PVal × List (PVal × PTree))) := do
  let r ← get_data executor model keys requested_rollup rollup series (envList environment_id)
      "uniq" true true [] false
  match r with
  | .node es => es.mapM (fun p => (treeItems p.2).map (fun its => (p.1, sortByTime its)))
  | .leaf _ => none

/-- `SnubaTSDB.get_distinct_counts_totals`: `uniq` per key. -/
def get_distinct_counts_totals (executor : SnubaQueryCall → PTree) (model : TSDBModel)
    (keys : KeysArg) (requested_rollup : Option Nat) (rollup : Nat) (series : List Int)
    (environment_id : Option PVal) (use_cache : Bool) : Option PTree :=
  get_data executor model keys requested_rollup rollup series (envList environment_id)
    "uniq" true false [] use_cache

/-- `SnubaTSDB.get_distinct_counts_union`: one cross-key `uniq` count
(grouping on the model's primary column disabled). -/
def get_distinct_counts_union (executor : SnubaQueryCall → PTree) (model : TSDBModel)
    (keys : KeysArg) (requested_rollup : Option Nat) (rollup : Nat) (series : List Int)
    (environment_id : Option PVal) : Option PTree :=
  get_data executor model keys requested_rollup rollup series (envList environment_id)
    "uniq" false false [] false

/-- Python `reversed(top or [])` materialised as a list: a topK list is
iterated as is, a falsy value (the zero-filled `0`, an empty string or an
empty dict) becomes `[]`, and any truthy non-sequence raises (`none`). -/
def topOrEmpty : PTree → Option (List PVal)
  | .leaf (.items xs) => some xs
  | .leaf (.num n) => if n = 0 then some [] else none
  | .leaf (.str s) => if s = "" then some [] else none
  | .node es => if es.isEmpty then some [] else none

/-- `[(v, float(i + 1)) for i, v in enumerate(reversed(top))]`: scores
`1, 2, …` assigned starting from the least frequent item (Python's float
scores are exact small integers, embedded as `Nat`). -/
def item_scores (top : List PVal) : List (PVal × Nat) :=
  top.reverse.enum.map (fun p => (p.2, p.1 + 1))

/-- The per-key re-scoring of `get_most_frequent`:
`list(reversed(item_scores))`. -/
def rescoreTop (top : List PVal) : List (PVal × Nat) := (item_scores top).reverse

/-- `SnubaTSDB.get_most_frequent`: `topK(limit)` per key, re-scored. -/
def get_most_frequent (executor : SnubaQueryCall → PTree) (model : TSDBModel)
    (keys : KeysArg) (requested_rollup : Option Nat) (rollup : Nat) (series : List Int)
    (lim : Nat) (environment_id : Option PVal) :
    Option (List (PVal × List (PVal × Nat))) := do
  let r ← get_data executor model keys requested_rollup rollup series (envList environment_id)
      ("topK(" ++ toString lim ++ ")") true false [] false
  match r with
  | .node es => es.mapM (fun p => (topOrEmpty p.2).map (fun top => (p.1, rescoreTop top)))
  | .leaf _ => none

/-- `SnubaTSDB.get_most_frequent_series`: `topK(limit)` per key and
bucket; each bucket's list becomes an item-to-score dict (insertion order:
least frequent first), buckets sorted by timestamp. -/
def get_most_frequent_series (executor : SnubaQueryCall → PTree) (model : TSDBModel)
    (keys : KeysArg) (requested_rollup : Option Nat) (rollup : Nat) (series : List Int)
    (lim : Nat) (environment_id : Option PVal) :
    Option (List (PVal × List (PVal × List (PVal × Nat)))) := do
  let r ← get_data executor model keys requested_rollup rollup series (envList environment_id)
      ("topK(" ++ toString lim ++ ")") true true [] false
  match r with
  | .node es => es.mapM (fun p => do
      let its ← treeItems p.2
      let scored ← its.mapM (fun q => (topOrEmpty q.2).map (fun top => (q.1, item_scores top)))
      pure (p.1, sortByTime scored))
  | .leaf _ => none

/-- `SnubaTSDB.get_frequency_series`: bare `count()` grouped (via the
count() rewrite) on the model's aggregate column, per key and bucket. -/
def get_frequency_series (executor : SnubaQueryCall → PTree) (model : TSDBModel)
    (items : KeysArg) (requested_rollup : Option Nat) (rollup : Nat) (series : List Int)
    (environment_id : Option PVal) : Option (List (PVal × List (PVal × PTree))) := do
  let r ← get_data executor model items requested_rollup rollup series (envList environment_id)
      "count()" true true [] false
  match r with
  | .node es => es.mapM (fun p => (treeItems p.2).map (fun its => (p.1, sortByTime its)))
  | .leaf _ => none

/-- `SnubaTSDB.get_frequency_totals`: bare `count()` grouped on the
model's aggregate column, per key. -/
def get_frequency_totals (executor : SnubaQueryCall → PTree) (model : TSDBModel)
    (items : KeysArg) (requested_rollup : Option Nat) (rollup : Nat) (series : List Int)
    (environment_id : Option PVal) : Option PTree :=
  get_data executor model items requested_rollup rollup series (envList environment_id)
    "count()" true false [] false

/-! ### Specification-side notions and basic lemmas -/

/-- The expected-keys list bound to a group in a `flat_keys` map. -/
def fkList (fk : List (String × List PVal)) (g : String) : List PVal :=
  (alookup fk g).getD []

/-- The entry list of a tree (empty for a leaf). -/
def entriesOf : PTree → List (PVal × PTree)
  | .node es => es
  | .leaf _ => []

/-- The entry list of the backend subtree found under a key (empty when
the key is absent or the value is a leaf). -/
def childEntries (rent : List (PVal × PTree)) (k : PVal) : List (PVal × PTree) :=
  match alookup rent k with
  | some t => entriesOf t
  | none => []

/-- The key is present in the dictionary. -/
def hasKey (es : List (PVal × PTree)) (k : PVal) : Prop :=
  (alookup es k).isSome = true

theorem memP_iff (l : List PVal) (x : PVal) : memP l x = true ↔ x ∈ l := by
  simp only [memP, List.any_eq_true, decide_eq_true_eq]
  exact ⟨fun ⟨y, hy, he⟩ => he ▸ hy, fun h => ⟨x, h, rfl⟩⟩

theorem alookup_append {κ β : Type} [DecidableEq κ] (l₁ l₂ : List (κ × β)) (k : κ) :
    alookup (l₁ ++ l₂) k =
      match alookup l₁ k with
      | some v => some v
      | none => alookup l₂ k := by
  induction l₁ with
  | nil => simp [alookup]
  | cons p rest ih =>
    by_cases h : p.1 = k <;> simp [alookup, h, ih]

theorem alookup_fillKeys (fill : PTree) :
    ∀ (ks : List PVal) (es : List (PVal × PTree)) (k : PVal),
    alookup (fillKeys fill es ks) k =
      match alookup es k with
      | some v => some v
      | none => if k ∈ ks then some fill else none := by
  intro ks
  induction ks with
  | nil => intro es k; cases h : alookup es k <;> simp [fillKeys, h]
  | cons k' ks' ih =>
    intro es k
    have h2 := ih (if (alookup es k').isSome = true then es else es ++ [(k', fill)]) k
    simp only [fillKeys, List.foldl_cons] at h2 ⊢
    rw [h2]
    by_cases hk' : (alookup es k').isSome = true
    · rw [if_pos hk']
      cases halk : alookup es k with
      | some v => simp
      | none =>
        by_cases hkk : k = k'
        · subst hkk; rw [halk] at hk'; simp at hk'
        · simp [List.mem_cons, hkk]
    · rw [if_neg hk']
      rw [alookup_append]
      cases halk : alookup es k with
      | some v => simp
      | none =>
        by_cases hkk : k' = k
        · subst hkk; simp [alookup, List.mem_cons]
        · have hkk2 : ¬ k = k' := fun h => hkk h.symm
          simp [alookup, hkk, List.mem_cons, hkk2]

theorem hasKey_fillKeys (fill : PTree) (ks : List PVal) (es : List (PVal × PTree)) (k : PVal) :
    hasKey (fillKeys fill es ks) k ↔ hasKey es k ∨ k ∈ ks := by
  unfold hasKey
  rw [alookup_fillKeys]
  cases h : alookup es k <;> by_cases hm : k ∈ ks <;> simp [hm]

theorem mapValsOpt_alookup (f : PTree → Option PTree) :
    ∀ (es es' : List (PVal × PTree)), mapValsOpt f es = some es' →
    ∀ k, (match alookup es k with
          | some v => ∃ v', f v = some v' ∧ alookup es' k = some v'
          | none => alookup es' k = none) := by
  intro es
  induction es with
  | nil =>
    intro es' h k
    simp only [mapValsOpt, Option.some.injEq] at h
    subst h; simp [alookup]
  | cons p rest ih =>
    intro es' h k
    simp only [mapValsOpt] at h
    cases hf : f p.2 with
    | none => rw [hf] at h; simp at h
    | some v' =>
      rw [hf] at h
      cases hrest : mapValsOpt f rest with
      | none => rw [hrest] at h; simp at h
      | some rest' =>
        rw [hrest] at h
        simp only [Option.some.injEq] at h
        subst h
        by_cases hk : p.1 = k
        · simp only [alookup, hk, if_true]
          exact ⟨v', hf, rfl⟩
        · simp only [alookup, hk, if_false]
          exact ih rest' hrest k

theorem mapValsOpt_alookup_rev (f : PTree → Option PTree) (es es' : List (PVal × PTree))
    (h : mapValsOpt f es = some es') (k : PVal) (v' : PTree)
    (h' : alookup es' k = some v') :
    ∃ v, alookup es k = some v ∧ f v = some v' := by
  have := mapValsOpt_alookup f es es' h k
  cases halk : alookup es k with
  | none => rw [halk] at this; rw [this] at h'; exact absurd h' (by simp)
  | some v =>
    rw [halk] at this
    obtain ⟨w, hw, hw'⟩ := this
    rw [hw'] at h'
    exact ⟨v, rfl, by rw [hw]; exact congrArg some (Option.some.inj h')⟩

theorem mapValsOpt_hasKey (f : PTree → Option PTree) (es es' : List (PVal × PTree))
    (h : mapValsOpt f es = some es') (k : PVal) :
    hasKey es' k ↔ hasKey es k := by
  have := mapValsOpt_alookup f es es' h k
  unfold hasKey
  cases halk : alookup es k with
  | none => rw [halk] at this; rw [this]
  | some v =>
    rw [halk] at this
    obtain ⟨v', _, hv'⟩ := this
    rw [hv']; simp

theorem mapValsOpt_of_forall (f : PTree → Option PTree) :
    ∀ (es : List (PVal × PTree)), (∀ p ∈ es, f p.2 = some p.2) →
    mapValsOpt f es = some es := by
  intro es
  induction es with
  | nil => intro _; rfl
  | cons p rest ih =>
    intro h
    have hp := h p (by simp)
    have hr := ih (fun q hq => h q (by simp [hq]))
    simp [mapValsOpt, hp, hr]

theorem mapValsOpt_mem (f : PTree → Option PTree) :
    ∀ (es es' : List (PVal × PTree)), mapValsOpt f es = some es' →
    ∀ p' ∈ es', ∃ p ∈ es, p'.1 = p.1 ∧ f p.2 = some p'.2 := by
  intro es
  induction es with
  | nil =>
    intro es' h p' hp'
    simp only [mapValsOpt, Option.some.injEq] at h
    subst h; simp at hp'
  | cons p rest ih =>
    intro es' h p' hp'
    simp only [mapValsOpt] at h
    cases hf : f p.2 with
    | none => rw [hf] at h; simp at h
    | some v' =>
      rw [hf] at h
      cases hrest : mapValsOpt f rest with
      | none => rw [hrest] at h; simp at h
      | some rest' =>
        rw [hrest] at h
        simp only [Option.some.injEq] at h
        subst h
        rcases List.mem_cons.mp hp' with he | hm
        · subst he; exact ⟨p, by simp, rfl, hf⟩
        · obtain ⟨q, hq, h1, h2⟩ := ih rest' hrest p' hm
          exact ⟨q, by simp [hq], h1, h2⟩

theorem mapValsOpt_cons_isSome (f : PTree → Option PTree) (p : PVal × PTree)
    (rest : List (PVal × PTree)) (l : List (PVal × PTree))
    (h : mapValsOpt f (p :: rest) = some l) : (f p.2).isSome = true := by
  simp only [mapValsOpt] at h
  cases hf : f p.2 with
  | none => rw [hf] at h; simp at h
  | some v' => simp

theorem alookup_trim_time (tr : PyKeys → PTree → PTree) (K : PyKeys) :
    ∀ (es : List (PVal × PTree)) (k : PVal),
    alookup (es.filterMap (trimEntry "time" tr K)) k = (alookup es k).map (tr K) := by
  intro es
  induction es with
  | nil => intro k; simp [alookup]
  | cons p rest ih =>
    intro k
    have he : trimEntry "time" tr K p = some (p.1, tr K p.2) := by
      simp [trimEntry]
    rw [List.filterMap_cons, he]
    by_cases hk : p.1 = k <;> simp [alookup, hk, ih]

theorem alookup_trim_nontime (g : String) (hg : g ≠ "time")
    (tr : PyKeys → PTree → PTree) (K : PyKeys) :
    ∀ (es : List (PVal × PTree)) (k : PVal),
    alookup (es.filterMap (trimEntry g tr K)) k =
      if K.mem k = true then
        (alookup es k).map (fun v =>
          match K with
          | .nested m => tr (.flat (scopedKeys m k)) v
          | .flat _ => v)
      else none := by
  intro es
  induction es with
  | nil => intro k; simp [alookup]
  | cons p rest ih =>
    intro k
    rw [List.filterMap_cons]
    by_cases hm : K.mem p.1 = true
    · have he : trimEntry g tr K p =
          some (p.1, match K with
                     | .nested m => tr (.flat (scopedKeys m p.1)) p.2
                     | .flat _ => p.2) := by
        cases K with
        | flat ks => simp [trimEntry, hg, hm]
        | nested m => simp [trimEntry, hg, hm]
      rw [he]
      by_cases hk : p.1 = k
      · subst hk
        cases K with
        | flat ks => simp [alookup, hm]
        | nested m => simp [alookup, hm]
      · simp only [alookup, hk, if_false]
        rw [ih]
    · have he : trimEntry g tr K p = none := by
        cases K with
        | flat ks => simp [trimEntry, hg, hm]
        | nested m => simp [trimEntry, hg, hm]
      rw [he]
      rw [ih]
      by_cases hk : p.1 = k
      · subst hk
        simp [alookup, hm]
      · simp [alookup, hk]

theorem trim_nil (K : PyKeys) (t : PTree) : trim [] K t = t := rfl

theorem trim_cons_leaf (g : String) (gs : List String) (K : PyKeys) (v : LeafVal) :
    trim (g :: gs) K (.leaf v) = .leaf v := rfl

theorem trim_cons_node (g : String) (gs : List String) (K : PyKeys)
    (es : List (PVal × PTree)) :
    trim (g :: gs) K (.node es) = .node (es.filterMap (trimEntry g (trim gs) K)) := rfl

theorem zerofill_nil (fk : List (String × List PVal)) (t : PTree) :
    zerofill fk [] t = some t := rfl

theorem zerofill_cons_leaf (fk : List (String × List PVal)) (g : String) (gs : List String)
    (v : LeafVal) : zerofill fk (g :: gs) (.leaf v) = none := rfl

theorem zerofill_cons_node (fk : List (String × List PVal)) (g : String) (gs : List String)
    (es : List (PVal × PTree)) :
    zerofill fk (g :: gs) (.node es) =
      match alookup fk g with
      | none => none
      | some ks =>
        if gs.isEmpty then
          some (.node (fillKeys (.leaf (.num 0)) es ks))
        else
          (mapValsOpt (zerofill fk gs)
            (fillKeys (.node []) es ks)).map .node := by
  cases hfk : alookup fk g with
  | none => simp [zerofill, hfk]
  | some ks =>
    cases gs with
    | nil => simp [zerofill, hfk]
    | cons g2 gs2 => simp [zerofill, hfk]

/-- Compatibility of the `flat_keys` map consumed by `zerofill` with the
key set consumed by `trim`, along a group-by order: at every non-time
level, every key allowed by the key set is among the expected keys of that
level (and recursively so for the per-primary scoped secondary keys).
`get_data` establishes this by construction: the primary column is bound
to exactly the primary keys, and the aggregate column to the union of all
secondary key collections. -/
def coversb : List String → List (String × List PVal) → PyKeys → Bool
  | [], _, _ => true
  | g :: gs, fk, K =>
    if g = "time" then coversb gs fk K
    else
      match K with
      | .flat ks => ks.all (fun x => memP (fkList fk g) x)
      | .nested m =>
        (m.map Prod.fst).all (fun x => memP (fkList fk g) x) &&
        m.attach.all (fun p => coversb gs fk (.flat (scopedKeys m p.1.1)))

/-- What claim C1 asserts of the final tree, relative to the backend
response entries `rent` and walking the group-by order the way `trim`
does: at a non-`time` level the keys present are exactly those allowed by
the (scoped) requested key set, at the last grouping level each of them is
bound to the backend's value for that key or to the zero-filled `0`, keys
of a `time` level are exactly the backend's plus the expected series (none
removed), and below a mapping level each branch is checked against the
secondary keys scoped to its own primary key. -/
def Conforms : List String → List (String × List PVal) → PyKeys →
    List (PVal × PTree) → PTree → Prop
  | [], _, _, _, _ => True
  | _ :: _, _, _, _, .leaf _ => True
  | g :: gs, fk, K, rent, .node es =>
    if g = "time" then
      (∀ k, hasKey es k ↔ (hasKey rent k ∨ k ∈ fkList fk g)) ∧
      (∀ k v, alookup es k = some v → Conforms gs fk K (childEntries rent k) v)
    else
      (∀ k, hasKey es k ↔ K.mem k = true) ∧
      (gs = [] → ∀ k v, alookup es k = some v →
        v = (alookup rent k).getD (.leaf (.num 0))) ∧
      (match K with
       | .flat _ => True
       | .nested m => ∀ k v, alookup es k = some v →
         Conforms gs fk (.flat (scopedKeys m k)) (childEntries rent k) v)

/-- Look up a nested path of keys in a tree. -/
def lookupPath : PTree → List PVal → Option PTree
  | t, [] => some t
  | .leaf _, _ :: _ => none
  | .node es, k :: rest =>
    match alookup es k with
    | some v => lookupPath v rest
    | none => none

theorem lookupPath_trim (groups : List String) :
    ∀ (K : PyKeys) (t : PTree) (path : List PVal) (v : LeafVal),
    lookupPath (trim groups K t) path = some (.leaf v) →
    lookupPath t path = some (.leaf v) := by
  induction groups with
  | nil => intro K t path v h; rwa [trim_nil] at h
  | cons g gs ih =>
    intro K t path v h
    cases t with
    | leaf w => rwa [trim_cons_leaf] at h
    | node es =>
      rw [trim_cons_node] at h
      cases path with
      | nil => simp [lookupPath] at h
      | cons k rest =>
        simp only [lookupPath] at h ⊢
        by_cases hg : g = "time"
        · subst hg
          rw [alookup_trim_time] at h
          cases halk : alookup es k with
          | none => rw [halk] at h; simp at h
          | some w =>
            rw [halk] at h
            simp only [Option.map_some'] at h
            exact ih K w rest v h
        · rw [alookup_trim_nontime g hg] at h
          by_cases hm : PyKeys.mem K k = true
          · rw [if_pos hm] at h
            cases halk : alookup es k with
            | none => rw [halk] at h; simp at h
            | some w =>
              rw [halk] at h
              simp only [Option.map_some'] at h
              cases K with
              | flat ks => exact h
              | nested m => exact ih _ w rest v h
          · rw [if_neg hm] at h
            simp at h

theorem lookupPath_zerofill (fk : List (String × List PVal)) (groups : List String) :
    ∀ (t t' : PTree), zerofill fk groups t = some t' →
    ∀ (path : List PVal) (v : LeafVal), lookupPath t' path = some (.leaf v) →
    lookupPath t path = some (.leaf v) ∨ v = .num 0 := by
  induction groups with
  | nil =>
    intro t t' h path v h'
    rw [zerofill_nil] at h
    left
    rw [Option.some.inj h]
    exact h'
  | cons g gs ih =>
    intro t t' h path v h'
    cases t with
    | leaf w => rw [zerofill_cons_leaf] at h; exact absurd h (by simp)
    | node es =>
      rw [zerofill_cons_node] at h
      cases hfk : alookup fk g with
      | none => rw [hfk] at h; simp at h
      | some ks =>
        rw [hfk] at h
        cases gs with
        | nil =>
          simp only [List.isEmpty_nil, if_true] at h
          rw [← Option.some.inj h] at h'
          cases path with
          | nil => simp [lookupPath] at h'
          | cons k rest =>
            simp only [lookupPath] at h' ⊢
            rw [alookup_fillKeys] at h'
            cases halk : alookup es k with
            | some w =>
              rw [halk] at h'
              left
              exact h'
            | none =>
              rw [halk] at h'
              by_cases hm : k ∈ ks
              · rw [if_pos hm] at h'
                cases rest with
                | nil =>
                  right
                  simp only [lookupPath, Option.some.injEq] at h'
                  cases h'
                  rfl
                | cons k2 r2 => simp [lookupPath] at h'
              · rw [if_neg hm] at h'
                simp at h'
        | cons g2 gs2 =>
          simp only [List.isEmpty_cons] at h
          cases hmv : mapValsOpt (zerofill fk (g2 :: gs2)) (fillKeys (.node []) es ks) with
          | none => rw [hmv] at h; simp at h
          | some es' =>
            rw [hmv] at h
            rw [if_neg (by simp)] at h
            simp only [Option.map_some', Option.some.injEq] at h
            rw [← h] at h'
            cases path with
            | nil => simp [lookupPath] at h'
            | cons k rest =>
              simp only [lookupPath] at h' ⊢
              cases halk' : alookup es' k with
              | none => rw [halk'] at h'; simp at h'
              | some v' =>
                rw [halk'] at h'
                obtain ⟨v0, hv0, hz0⟩ := mapValsOpt_alookup_rev _ _ _ hmv k v' halk'
                rcases ih v0 v' hz0 rest v h' with hl | hr
                · rw [alookup_fillKeys] at hv0
                  cases halk : alookup es k with
                  | some w =>
                    rw [halk] at hv0
                    left
                    have hw : w = v0 := Option.some.inj hv0
                    show lookupPath w rest = some (.leaf v)
                    rw [hw]
                    exact hl
                  | none =>
                    rw [halk] at hv0
                    have hv0' : (if k ∈ ks then some (PTree.node []) else none) = some v0 := hv0
                    by_cases hm : k ∈ ks
                    · rw [if_pos hm] at hv0'
                      rw [← Option.some.inj hv0'] at hl
                      cases rest with
                      | nil => simp [lookupPath] at hl
                      | cons k2 r2 => simp [lookupPath, alookup] at hl
                    · rw [if_neg hm] at hv0'
                      exact absurd hv0' (by simp)
                · right
                  exact hr

theorem isSome_map {α β : Type} (f : α → β) (o : Option α) : (o.map f).isSome = o.isSome := by
  cases o <;> rfl

theorem childEntries_fillKeys (fill : PTree) (hfill : entriesOf fill = [])
    (es : List (PVal × PTree)) (ks : List PVal) (k : PVal) (v0 : PTree)
    (h : alookup (fillKeys fill es ks) k = some v0) :
    childEntries es k = entriesOf v0 := by
  rw [alookup_fillKeys] at h
  cases halk : alookup es k with
  | some w =>
    rw [halk] at h
    have hw : w = v0 := Option.some.inj h
    simp [childEntries, halk, hw]
  | none =>
    rw [halk] at h
    have h' : (if k ∈ ks then some fill else none) = some v0 := h
    by_cases hm : k ∈ ks
    · rw [if_pos hm] at h'
      rw [← Option.some.inj h']
      simp [childEntries, halk, hfill]
    · rw [if_neg hm] at h'
      exact absurd h' (by simp)

theorem coversb_nontime_flat (g : String) (gs : List String)
    (fk : List (String × List PVal)) (ksK : List PVal) (hg : g ≠ "time")
    (hcov : coversb (g :: gs) fk (.flat ksK) = true) :
    ∀ k, PyKeys.mem (.flat ksK) k = true → k ∈ fkList fk g := by
  intro k hk
  simp only [coversb, hg, if_false, List.all_eq_true] at hcov
  rw [PyKeys.mem, memP_iff] at hk
  have := hcov k hk
  rwa [memP_iff] at this

theorem coversb_nontime_nested (g : String) (gs : List String)
    (fk : List (String × List PVal)) (m : List (PVal × List PVal)) (hg : g ≠ "time")
    (hcov : coversb (g :: gs) fk (.nested m) = true) :
    (∀ k, PyKeys.mem (.nested m) k = true → k ∈ fkList fk g) ∧
    (∀ k, PyKeys.mem (.nested m) k = true →
      coversb gs fk (.flat (scopedKeys m k)) = true) := by
  simp only [coversb, hg, if_false, Bool.and_eq_true, List.all_eq_true] at hcov
  obtain ⟨h1, h2⟩ := hcov
  constructor
  · intro k hk
    rw [PyKeys.mem, memP_iff] at hk
    have := h1 k hk
    rwa [memP_iff] at this
  · intro k hk
    rw [PyKeys.mem, memP_iff, List.mem_map] at hk
    obtain ⟨p, hp, hpk⟩ := hk
    have := h2 ⟨p, hp⟩ (List.mem_attach m ⟨p, hp⟩)
    rwa [hpk] at this

theorem conforms_trim_zerofill :
    ∀ (groups : List String) (fk : List (String × List PVal)) (K : PyKeys) (R R' : PTree),
    coversb groups fk K = true →
    zerofill fk groups R = some R' →
    Conforms groups fk K (entriesOf R) (trim groups K R') := by
  intro groups
  induction groups with
  | nil => intro fk K R R' _ _; trivial
  | cons g gs ih =>
    intro fk K R R' hcov hz
    cases R with
    | leaf w => rw [zerofill_cons_leaf] at hz; exact absurd hz (by simp)
    | node es =>
      rw [zerofill_cons_node] at hz
      cases hfk : alookup fk g with
      | none => rw [hfk] at hz; simp at hz
      | some ks =>
        rw [hfk] at hz
        have hfkL : fkList fk g = ks := by simp [fkList, hfk]
        cases gs with
        | nil =>
          have hz2 : some (PTree.node (fillKeys (PTree.leaf (LeafVal.num 0)) es ks))
              = some R' := hz
          have hR' : R' = .node (fillKeys (.leaf (.num 0)) es ks) := (Option.some.inj hz2).symm
          subst hR'
          rw [trim_cons_node]
          by_cases hg : g = "time"
          · subst hg
            show Conforms ("time" :: []) fk K (entriesOf (.node es)) _
            simp only [Conforms, entriesOf, if_pos rfl]
            constructor
            · intro k
              unfold hasKey
              rw [alookup_trim_time, isSome_map, hfkL]
              exact hasKey_fillKeys _ ks es k
            · intro k v _
              trivial
          · simp only [Conforms, entriesOf, if_neg hg]
            refine ⟨?_, ?_, ?_⟩
            · intro k
              unfold hasKey
              rw [alookup_trim_nontime g hg]
              by_cases hm : PyKeys.mem K k = true
              · rw [if_pos hm, isSome_map]
                simp only [hm, iff_true]
                have hks : k ∈ ks := by
                  cases K with
                  | flat ksK => rw [← hfkL]; exact coversb_nontime_flat g [] fk ksK hg hcov k hm
                  | nested m => rw [← hfkL]; exact (coversb_nontime_nested g [] fk m hg hcov).1 k hm
                have := (hasKey_fillKeys (.leaf (.num 0)) ks es k).2 (Or.inr hks)
                exact this
              · rw [if_neg hm]
                simp [hm]
            · intro _ k v hv
              rw [alookup_trim_nontime g hg] at hv
              by_cases hm : PyKeys.mem K k = true
              · rw [if_pos hm] at hv
                cases hfl : alookup (fillKeys (.leaf (.num 0)) es ks) k with
                | none => rw [hfl] at hv; simp at hv
                | some u =>
                  rw [hfl] at hv
                  simp only [Option.map_some', Option.some.injEq] at hv
                  have hvu : v = u := by
                    cases K with
                    | flat ksK => exact hv.symm
                    | nested m =>
                      rw [← hv]
                      show trim [] (PyKeys.flat (scopedKeys m k)) u = u
                      rw [trim_nil]
                  rw [alookup_fillKeys] at hfl
                  cases halk : alookup es k with
                  | some w =>
                    rw [halk] at hfl
                    have hw : w = u := Option.some.inj hfl
                    rw [hvu, ← hw]
                    rfl
                  | none =>
                    rw [halk] at hfl
                    have hfl' : (if k ∈ ks then some (PTree.leaf (LeafVal.num 0)) else none)
                        = some u := hfl
                    by_cases hmk : k ∈ ks
                    · rw [if_pos hmk] at hfl'
                      rw [hvu, ← Option.some.inj hfl']
                      rfl
                    · rw [if_neg hmk] at hfl'
                      exact absurd hfl' (by simp)
              · rw [if_neg hm] at hv
                exact absurd hv (by simp)
            · cases K with
              | flat ksK => trivial
              | nested m =>
                intro k v _
                trivial
        | cons g2 gs2 =>
          have hz2 : Option.map PTree.node
              (mapValsOpt (zerofill fk (g2 :: gs2)) (fillKeys (PTree.node []) es ks))
              = some R' := hz
          cases hmv : mapValsOpt (zerofill fk (g2 :: gs2)) (fillKeys (.node []) es ks) with
          | none => rw [hmv] at hz2; simp at hz2
          | some es' =>
            rw [hmv] at hz2
            simp only [Option.map_some', Option.some.injEq] at hz2
            have hR' : R' = .node es' := hz2.symm
            subst hR'
            rw [trim_cons_node]
            have hkeys' : ∀ k, hasKey es' k ↔ hasKey es k ∨ k ∈ ks := by
              intro k
              rw [mapValsOpt_hasKey _ _ _ hmv]
              exact hasKey_fillKeys _ ks es k
            by_cases hg : g = "time"
            · subst hg
              have hcov' : coversb (g2 :: gs2) fk K = true := by
                simp only [coversb, if_pos rfl] at hcov
                exact hcov
              simp only [Conforms, entriesOf, if_pos rfl]
              constructor
              · intro k
                unfold hasKey
                rw [alookup_trim_time, isSome_map, hfkL]
                exact hkeys' k
              · intro k v hv
                rw [alookup_trim_time] at hv
                cases halk' : alookup es' k with
                | none => rw [halk'] at hv; simp at hv
                | some v' =>
                  rw [halk'] at hv
                  simp only [Option.map_some', Option.some.injEq] at hv
                  obtain ⟨v0, hv0, hz0⟩ := mapValsOpt_alookup_rev _ _ _ hmv k v' halk'
                  have hcc := childEntries_fillKeys (.node []) rfl es ks k v0 hv0
                  rw [← hv, hcc]
                  exact ih fk K v0 v' hcov' hz0
            · simp only [Conforms, entriesOf, if_neg hg]
              refine ⟨?_, ?_, ?_⟩
              · intro k
                unfold hasKey
                rw [alookup_trim_nontime g hg]
                by_cases hm : PyKeys.mem K k = true
                · rw [if_pos hm, isSome_map]
                  simp only [hm, iff_true]
                  have hks : k ∈ ks := by
                    cases K with
                    | flat ksK =>
                      rw [← hfkL]
                      exact coversb_nontime_flat g (g2 :: gs2) fk ksK hg hcov k hm
                    | nested m =>
                      rw [← hfkL]
                      exact (coversb_nontime_nested g (g2 :: gs2) fk m hg hcov).1 k hm
                  have := (hkeys' k).2 (Or.inr hks)
                  unfold hasKey at this
                  exact this
                · rw [if_neg hm]
                  simp [hm]
              · intro habs
                exact absurd habs (by simp)
              · cases K with
                | flat ksK => trivial
                | nested m =>
                  intro k v hv
                  rw [alookup_trim_nontime g hg] at hv
                  by_cases hm : PyKeys.mem (.nested m) k = true
                  · rw [if_pos hm] at hv
                    cases halk' : alookup es' k with
                    | none => rw [halk'] at hv; simp at hv
                    | some v' =>
                      rw [halk'] at hv
                      simp only [Option.map_some', Option.some.injEq] at hv
                      obtain ⟨v0, hv0, hz0⟩ := mapValsOpt_alookup_rev _ _ _ hmv k v' halk'
                      have hcov2 :=
                        (coversb_nontime_nested g (g2 :: gs2) fk m hg hcov).2 k hm
                      have hcc := childEntries_fillKeys (.node []) rfl es ks k v0 hv0
                      rw [← hv, hcc]
                      exact ih fk (.flat (scopedKeys m k)) v0 v' hcov2 hz0
                  · rw [if_neg hm] at hv
                    exact absurd hv (by simp)

/-- C1: for every requested key set `K` (flat collection or
primary-to-secondary mapping, with expected keys `fk` covering it the way
`get_data` builds `keys_map`) and every backend response tree `R`,
applying `zerofill` with the request's group-by order and expected keys
and then `trim` with `K` yields a tree that contains exactly the keys of
`K` at every non-time grouping level, each bound to either the backend's
value or `0` (every leaf is a backend leaf at the same path or the filled
`0`); keys at a `time` level are never removed, and when `K` is a mapping,
trimming below the first level keeps only the secondary keys scoped to
that branch's primary key — all as captured by `Conforms`. -/
theorem claim_C1_zerofill_trim_composition (groups : List String)
    (fk : List (String × List PVal)) (K : PyKeys) (R R' : PTree)
    (hcov : coversb groups fk K = true) (hz : zerofill fk groups R = some R') :
    Conforms groups fk K (entriesOf R) (trim groups K R') ∧
    (∀ path v, lookupPath (trim groups K R') path = some (.leaf v) →
      lookupPath R path = some (.leaf v) ∨ v = .num 0) := by
  refine ⟨conforms_trim_zerofill groups fk K R R' hcov hz, ?_⟩
  intro path v h
  exact lookupPath_zerofill fk groups R R' hz path v (lookupPath_trim groups K R' path v h)

theorem claim_C1_witness :
    coversb ["project_id", "quantity"]
      [("project_id", [.vint 1, .vint 2]), ("quantity", [.vint 10, .vint 11, .vint 12])]
      (.nested [(.vint 1, [.vint 10, .vint 11]), (.vint 2, [.vint 12])]) = true ∧
    zerofill
      [("project_id", [.vint 1, .vint 2]), ("quantity", [.vint 10, .vint 11, .vint 12])]
      ["project_id", "quantity"]
      (.node [(.vint 3, .node []),
              (.vint 1, .node [(.vint 10, .leaf (.num 7)), (.vint 99, .leaf (.num 5))])]) =
      some (.node
        [(.vint 3, .node [(.vint 10, .leaf (.num 0)), (.vint 11, .leaf (.num 0)),
                          (.vint 12, .leaf (.num 0))]),
         (.vint 1, .node [(.vint 10, .leaf (.num 7)), (.vint 99, .leaf (.num 5)),
                          (.vint 11, .leaf (.num 0)), (.vint 12, .leaf (.num 0))]),
         (.vint 2, .node [(.vint 10, .leaf (.num 0)), (.vint 11, .leaf (.num 0)),
                          (.vint 12, .leaf (.num 0))])]) ∧
    (Conforms ["project_id", "quantity"]
      [("project_id", [.vint 1, .vint 2]), ("quantity", [.vint 10, .vint 11, .vint 12])]
      (.nested [(.vint 1, [.vint 10, .vint 11]), (.vint 2, [.vint 12])])
      (entriesOf (.node [(.vint 3, .node []),
        (.vint 1, .node [(.vint 10, .leaf (.num 7)), (.vint 99, .leaf (.num 5))])]))
      (trim ["project_id", "quantity"]
        (.nested [(.vint 1, [.vint 10, .vint 11]), (.vint 2, [.vint 12])])
        (.node
          [(.vint 3, .node [(.vint 10, .leaf (.num 0)), (.vint 11, .leaf (.num 0)),
                            (.vint 12, .leaf (.num 0))]),
           (.vint 1, .node [(.vint 10, .leaf (.num 7)), (.vint 99, .leaf (.num 5)),
                            (.vint 11, .leaf (.num 0)), (.vint 12, .leaf (.num 0))]),
           (.vint 2, .node [(.vint 10, .leaf (.num 0)), (.vint 11, .leaf (.num 0)),
                            (.vint 12, .leaf (.num 0))])])) ∧
    (∀ path v,
      lookupPath (trim ["project_id", "quantity"]
        (.nested [(.vint 1, [.vint 10, .vint 11]), (.vint 2, [.vint 12])])
        (.node
          [(.vint 3, .node [(.vint 10, .leaf (.num 0)), (.vint 11, .leaf (.num 0)),
                            (.vint 12, .leaf (.num 0))]),
           (.vint 1, .node [(.vint 10, .leaf (.num 7)), (.vint 99, .leaf (.num 5)),
                            (.vint 11, .leaf (.num 0)), (.vint 12, .leaf (.num 0))]),
           (.vint 2, .node [(.vint 10, .leaf (.num 0)), (.vint 11, .leaf (.num 0)),
                            (.vint 12, .leaf (.num 0))])])) path = some (.leaf v) →
      lookupPath (.node [(.vint 3, .node []),
        (.vint 1, .node [(.vint 10, .leaf (.num 7)), (.vint 99, .leaf (.num 5))])]) path
        = some (.leaf v) ∨ v = .num 0)) :=
  ⟨rfl, rfl,
    claim_C1_zerofill_trim_composition ["project_id", "quantity"]
      [("project_id", [.vint 1, .vint 2]), ("quantity", [.vint 10, .vint 11, .vint 12])]
      (.nested [(.vint 1, [.vint 10, .vint 11]), (.vint 2, [.vint 12])])
      (.node [(.vint 3, .node []),
              (.vint 1, .node [(.vint 10, .leaf (.num 7)), (.vint 99, .leaf (.num 5))])])
      (.node
        [(.vint 3, .node [(.vint 10, .leaf (.num 0)), (.vint 11, .leaf (.num 0)),
                          (.vint 12, .leaf (.num 0))]),
         (.vint 1, .node [(.vint 10, .leaf (.num 7)), (.vint 99, .leaf (.num 5)),
                          (.vint 11, .leaf (.num 0)), (.vint 12, .leaf (.num 0))]),
         (.vint 2, .node [(.vint 10, .leaf (.num 0)), (.vint 11, .leaf (.num 0)),
                          (.vint 12, .leaf (.num 0))])])
      rfl rfl⟩

/-- A tree already contains every expected key at every grouping level (and
is dict-shaped wherever grouping levels remain, as `zerofill` requires). -/
def completeb (fk : List (String × List PVal)) : List String → PTree → Bool
  | [] => fun _ => true
  | _g :: gs => fun t =>
    match t with
    | .leaf _ => false
    | .node es =>
      match alookup fk _g with
      | none => false
      | some ks =>
        ks.all (fun k => (alookup es k).isSome) &&
        (gs.isEmpty || es.attach.all (fun p => completeb fk gs p.1.2))

theorem completeb_cons_node (fk : List (String × List PVal)) (g : String) (gs : List String)
    (es : List (PVal × PTree)) :
    completeb fk (g :: gs) (.node es) =
      match alookup fk g with
      | none => false
      | some ks =>
        ks.all (fun k => (alookup es k).isSome) &&
        (gs.isEmpty || es.attach.all (fun p => completeb fk gs p.1.2)) := rfl

theorem fillKeys_of_complete (fill : PTree) :
    ∀ (ks : List PVal) (es : List (PVal × PTree)),
    (∀ k ∈ ks, (alookup es k).isSome = true) → fillKeys fill es ks = es := by
  intro ks
  induction ks with
  | nil => intro es _; rfl
  | cons k' ks' ih =>
    intro es h
    have hk' := h k' (by simp)
    show List.foldl _ (if (alookup es k').isSome = true then es else es ++ [(k', fill)]) ks' = es
    rw [if_pos hk']
    exact ih es (fun k hk => h k (by simp [hk]))

theorem zerofill_of_completeb (fk : List (String × List PVal)) :
    ∀ (groups : List String) (t : PTree),
    completeb fk groups t = true → zerofill fk groups t = some t := by
  intro groups
  induction groups with
  | nil => intro t _; rfl
  | cons g gs ih =>
    intro t hc
    cases t with
    | leaf v => simp [completeb] at hc
    | node es =>
      rw [completeb_cons_node] at hc
      cases hfk : alookup fk g with
      | none => rw [hfk] at hc; simp at hc
      | some ks =>
        rw [hfk] at hc
        simp only [Bool.and_eq_true, List.all_eq_true] at hc
        obtain ⟨h1, h2⟩ := hc
        rw [zerofill_cons_node, hfk]
        have hfill : ∀ fill, fillKeys fill es ks = es :=
          fun fill => fillKeys_of_complete fill ks es (fun k hk => h1 k hk)
        cases gs with
        | nil => simp [hfill]
        | cons g2 gs2 =>
          show Option.map PTree.node
              (mapValsOpt (zerofill fk (g2 :: gs2)) (fillKeys (PTree.node []) es ks))
            = some (PTree.node es)
          rw [hfill]
          have hmv : mapValsOpt (zerofill fk (g2 :: gs2)) es = some es := by
            apply mapValsOpt_of_forall
            intro p hp
            apply ih
            rcases Bool.or_eq_true _ _ |>.mp h2 with h | h
            · simp at h
            · rw [List.all_eq_true] at h
              exact h ⟨p, hp⟩ (List.mem_attach es ⟨p, hp⟩)
          rw [hmv]
          rfl

theorem completeb_of_zerofill (fk : List (String × List PVal)) :
    ∀ (groups : List String) (t t' : PTree),
    zerofill fk groups t = some t' → completeb fk groups t' = true := by
  intro groups
  induction groups with
  | nil => intro t t' _; rfl
  | cons g gs ih =>
    intro t t' hz
    cases t with
    | leaf v => rw [zerofill_cons_leaf] at hz; exact absurd hz (by simp)
    | node es =>
      rw [zerofill_cons_node] at hz
      cases hfk : alookup fk g with
      | none => rw [hfk] at hz; simp at hz
      | some ks =>
        rw [hfk] at hz
        cases gs with
        | nil =>
          have hz2 : some (PTree.node (fillKeys (PTree.leaf (LeafVal.num 0)) es ks))
              = some t' := hz
          rw [← Option.some.inj hz2]
          rw [completeb_cons_node, hfk]
          simp only [List.isEmpty_nil, Bool.true_or, Bool.and_true, List.all_eq_true]
          intro k hk
          have := (hasKey_fillKeys (.leaf (.num 0)) ks es k).2 (Or.inr hk)
          exact this
        | cons g2 gs2 =>
          have hz2 : Option.map PTree.node
              (mapValsOpt (zerofill fk (g2 :: gs2)) (fillKeys (PTree.node []) es ks))
              = some t' := hz
          cases hmv : mapValsOpt (zerofill fk (g2 :: gs2)) (fillKeys (.node []) es ks) with
          | none => rw [hmv] at hz2; simp at hz2
          | some es' =>
            rw [hmv] at hz2
            simp only [Option.map_some', Option.some.injEq] at hz2
            rw [← hz2]
            rw [completeb_cons_node, hfk]
            simp only [Bool.and_eq_true, List.all_eq_true]
            constructor
            · intro k hk
              have h1 : hasKey es' k := by
                rw [mapValsOpt_hasKey _ _ _ hmv]
                exact (hasKey_fillKeys (.node []) ks es k).2 (Or.inr hk)
              exact h1
            · apply Bool.or_eq_true _ _ |>.mpr
              right
              rw [List.all_eq_true]
              intro p _
              obtain ⟨q, _, _, hq2⟩ := mapValsOpt_mem _ _ _ hmv p.1 p.2
              exact ih q.2 p.1.2 hq2

/-- C6 counterexample: zerofilling the empty response for groups
`["p", "time"]` binds the absent primary key `1` to a map that the
recursion has itself zero-filled (bucket `10` bound to `0`), not to an
empty nested map as the claim states for non-last grouping levels. -/
theorem claim_C6_counterexample :
    zerofill [("p", [.vint 1]), ("time", [.vint 10])] ["p", "time"] (.node []) =
      some (.node [(.vint 1, .node [(.vint 10, .leaf (.num 0))])]) ∧
    zerofill [("p", [.vint 1]), ("time", [.vint 10])] ["p", "time"] (.node []) ≠
      some (.node [(.vint 1, .node [])]) := by
  constructor
  · rfl
  · intro h
    rw [show zerofill [("p", [.vint 1]), ("time", [.vint 10])] ["p", "time"] (.node []) =
      some (.node [(.vint 1, .node [(.vint 10, .leaf (.num 0))])]) from rfl] at h
    simp at h

/-- C6 (amended): `zerofill` is idempotent — applying it to a tree that
already contains every expected key at every grouping level is a no-op,
and after one successful application every expected key at every grouping
level is present (so a second application changes nothing), with absent
keys filled by the scalar `0` at the last grouping level and, at earlier
levels, by a nested map whose contents are recursively zero-filled (not
left empty). -/
theorem claim_C6_zerofill_idempotent :
    (∀ fk groups t, completeb fk groups t = true → zerofill fk groups t = some t) ∧
    (∀ fk groups t t', zerofill fk groups t = some t' → completeb fk groups t' = true) ∧
    (∀ fk groups t t', zerofill fk groups t = some t' → zerofill fk groups t' = some t') ∧
    (∀ fk g es ks, alookup fk g = some ks →
      zerofill fk [g] (.node es) = some (.node (fillKeys (.leaf (.num 0)) es ks))) := by
  refine ⟨zerofill_of_completeb, completeb_of_zerofill, ?_, ?_⟩
  · intro fk groups t t' h
    exact zerofill_of_completeb fk groups t' (completeb_of_zerofill fk groups t t' h)
  · intro fk g es ks hfk
    rw [zerofill_cons_node, hfk]
    rfl

theorem claim_C6_witness :
    completeb [("p", [.vint 1])] ["p"] (.node [(.vint 1, .leaf (.num 3))]) = true ∧
    zerofill [("p", [.vint 1])] ["p"] (.node [(.vint 1, .leaf (.num 3))]) =
      some (.node [(.vint 1, .leaf (.num 3))]) :=
  ⟨rfl, claim_C6_zerofill_idempotent.1 [("p", [.vint 1])] ["p"]
    (.node [(.vint 1, .leaf (.num 3))]) rfl⟩

/-- C7 counterexample: a subtree that contains the aggregate alias key
bound to the falsy value `0` is not replaced by `unnest` (the code tests
the truthiness of `val.get(aggregated_as)`, not the key's presence), so
the tree is returned unchanged instead of collapsing to the claimed
`{1: 0}`. -/
theorem claim_C7_counterexample :
    unnestEntries (.vstr "aggregate")
      [(.vint 1, .node [(.vstr "aggregate", .leaf (.num 0))])] =
      [(.vint 1, .node [(.vstr "aggregate", .leaf (.num 0))])] ∧
    [(.vint 1, PTree.node [(.vstr "aggregate", .leaf (.num 0))])] ≠
      ([(.vint 1, PTree.leaf (.num 0))] : List (PVal × PTree)) := by
  constructor
  · simp [unnestEntries, alookup, PTree.truthy, LeafVal.truthy]
  · intro h
    simp at h

/-- C7 (amended): `unnest` replaces every dict entry whose value is a
dict containing the aggregate alias key with a truthy (non-zero,
non-empty) value by that value, collapsing one nesting level; a value
where the alias is absent or bound to a falsy value is recursed into, and
non-dict values and the key list itself are left unchanged. -/
theorem claim_C7_unnest_characterization :
    ∀ (al : PVal) (es : List (PVal × PTree)) (k : PVal),
    ((unnestEntries al es).map Prod.fst = es.map Prod.fst) ∧
    alookup (unnestEntries al es) k =
      (match alookup es k with
       | none => none
       | some (.leaf v) => some (.leaf v)
       | some (.node ves) =>
         some (match alookup ves al with
               | some av => if av.truthy then av else .node (unnestEntries al ves)
               | none => .node (unnestEntries al ves))) := by
  intro al es
  induction es with
  | nil => intro k; constructor <;> simp [unnestEntries, alookup]
  | cons p rest ih =>
    intro k
    obtain ⟨k0, v0⟩ := p
    cases v0 with
    | leaf w =>
      constructor
      · simp [unnestEntries, (ih k).1]
      · by_cases hk : k0 = k <;> simp [unnestEntries, alookup, hk, (ih k).2]
    | node ves =>
      cases halv : alookup ves al with
      | none =>
        constructor
        · simp [unnestEntries, halv, (ih k).1]
        · by_cases hk : k0 = k <;> simp [unnestEntries, halv, alookup, hk, (ih k).2]
      | some av =>
        by_cases htr : av.truthy = true
        · constructor
          · simp [unnestEntries, halv, htr, (ih k).1]
          · by_cases hk : k0 = k <;>
              simp [unnestEntries, halv, htr, alookup, hk, (ih k).2]
        · constructor
          · simp [unnestEntries, halv, htr, (ih k).1]
          · by_cases hk : k0 = k <;>
              simp [unnestEntries, halv, htr, alookup, hk, (ih k).2]

/-- The re-scoring described by the spec's words: the backend order (most
frequent first) is preserved, and the item `i` places from the end of the
list receives score `i + 1`, so the least frequent item scores `1` and the
most frequent scores `length`. -/
def specRescore : List PVal → List (PVal × Nat)
  | [] => []
  | x :: rest => (x, rest.length + 1) :: specRescore rest

theorem enumFrom_append_singleton {α : Type} :
    ∀ (l : List α) (n : Nat) (a : α),
    List.enumFrom n (l ++ [a]) = List.enumFrom n l ++ [(n + l.length, a)] := by
  intro l
  induction l with
  | nil => intro n a; simp [List.enumFrom]
  | cons x xs ih =>
    intro n a
    show (n, x) :: List.enumFrom (n + 1) (xs ++ [a])
        = ((n, x) :: List.enumFrom (n + 1) xs) ++ [(n + (x :: xs).length, a)]
    rw [List.cons_append, ih]
    have h3 : n + 1 + xs.length = n + (x :: xs).length := by
      simp only [List.length_cons]
      omega
    rw [h3]

/-- C3 counterexample: on the backend topK list `["c","b","a"]` (most
frequent first) the facade's re-scoring returns
`[("c",3.0), ("b",2.0), ("a",1.0)]` — the same item/score pairs the claim
lists, but ordered most frequent first, not `[("a",1.0), ...]` as the
claim's example states (the final `list(reversed(item_scores))` restores
the backend order). -/
theorem claim_C3_counterexample :
    rescoreTop [.vstr "c", .vstr "b", .vstr "a"] =
      [(.vstr "c", 3), (.vstr "b", 2), (.vstr "a", 1)] ∧
    rescoreTop [.vstr "c", .vstr "b", .vstr "a"] ≠
      [(.vstr "a", 1), (.vstr "b", 2), (.vstr "c", 3)] := by
  constructor
  · rfl
  · decide

/-- C3 (amended): for every key of the `get_most_frequent` result, the
backend-ranked topK list (most frequent first) is re-scored so the least
frequent item gets score `1.0` and scores ascend by `1.0` toward the most
frequent item, the returned list keeping the backend's
most-frequent-first order (highest score first): the `i`-th item from the
end of the list is paired with score `i + 1`. -/
theorem claim_C3_most_frequent_rescoring :
    ∀ top : List PVal, rescoreTop top = specRescore top := by
  intro top
  induction top with
  | nil => rfl
  | cons x rest ih =>
    show (((x :: rest).reverse.enum.map (fun p => (p.2, p.1 + 1))).reverse)
        = (x, rest.length + 1) :: specRescore rest
    rw [List.reverse_cons]
    have he : (rest.reverse ++ [x]).enum
        = rest.reverse.enum ++ [(rest.reverse.length, x)] := by
      show List.enumFrom 0 (rest.reverse ++ [x]) = List.enumFrom 0 rest.reverse ++ _
      rw [enumFrom_append_singleton]
      simp
    rw [he, List.map_append, List.reverse_append]
    simp only [List.map_cons, List.map_nil, List.length_reverse, List.reverse_cons,
      List.reverse_nil, List.nil_append, List.singleton_append]
    rw [← ih]
    rfl

theorem pyDedup_aux {α : Type} [DecidableEq α] :
    ∀ (l acc : List α),
    (∀ x, x ∈ l.foldl (fun acc x => if x ∈ acc then acc else acc ++ [x]) acc ↔
      x ∈ acc ∨ x ∈ l) ∧
    (acc.Nodup → (l.foldl (fun acc x => if x ∈ acc then acc else acc ++ [x]) acc).Nodup) := by
  intro l
  induction l with
  | nil => intro acc; simp
  | cons y ys ih =>
    intro acc
    constructor
    · intro x
      simp only [List.foldl_cons]
      by_cases hy : y ∈ acc
      · rw [if_pos hy, (ih acc).1 x]
        constructor
        · rintro (h | h)
          · exact Or.inl h
          · exact Or.inr (by simp [h])
        · rintro (h | h)
          · exact Or.inl h
          · rcases List.mem_cons.mp h with he | hm
            · subst he; exact Or.inl hy
            · exact Or.inr hm
      · rw [if_neg hy, (ih (acc ++ [y])).1 x]
        simp only [List.mem_append, List.mem_singleton, List.mem_cons]
        tauto
    · intro hnd
      simp only [List.foldl_cons]
      by_cases hy : y ∈ acc
      · rw [if_pos hy]
        exact (ih acc).2 hnd
      · rw [if_neg hy]
        apply (ih (acc ++ [y])).2
        simp [List.nodup_append, hnd, hy]

theorem pyDedup_mem {α : Type} [DecidableEq α] (l : List α) (x : α) :
    x ∈ pyDedup l ↔ x ∈ l := by
  unfold pyDedup
  rw [(pyDedup_aux l []).1 x]
  simp

theorem pyDedup_nodup {α : Type} [DecidableEq α] (l : List α) : (pyDedup l).Nodup := by
  unfold pyDedup
  exact (pyDedup_aux l []).2 List.nodup_nil

theorem pyDedup_ne_nil {α : Type} [DecidableEq α] (l : List α) (h : l ≠ []) :
    pyDedup l ≠ [] := by
  cases l with
  | nil => exact absurd rfl h
  | cons x xs =>
    intro hc
    have : x ∈ pyDedup (x :: xs) := (pyDedup_mem _ x).2 (by simp)
    rw [hc] at this
    simp at this

/-- C4: key normalization.  A mapping input yields the list of its primary
keys paired with the deduplicated union of all its value collections; a
flat sequence or set yields the keys themselves with null secondary keys;
any other input type fails (`ValueError`, the `UnsupportedKeyShape`
error). -/
theorem claim_C4_flatten_keys :
    (∀ (m : List (PVal × List PVal)) (prim : List PVal) (sec : Option (List PVal)),
      flatten_keys (.mapping m) = some (prim, sec) →
      prim = m.map Prod.fst ∧
      ∃ u, sec = some u ∧ u.Nodup ∧ (∀ x, x ∈ u ↔ ∃ p ∈ m, x ∈ p.2)) ∧
    (∀ ks, flatten_keys (.seq ks) = some (ks, none)) ∧
    (∀ ks, flatten_keys (.set ks) = some (ks, none)) ∧
    flatten_keys .other = none := by
  refine ⟨?_, fun ks => rfl, fun ks => rfl, rfl⟩
  intro m prim sec h
  simp only [flatten_keys, Option.some.injEq, Prod.mk.injEq] at h
  obtain ⟨hp, hs⟩ := h
  refine ⟨hp.symm, _, hs.symm, ?_, ?_⟩
  · by_cases hm : m.isEmpty
    · rw [if_pos hm]; exact List.nodup_nil
    · rw [if_neg hm]; exact pyDedup_nodup _
  · intro x
    by_cases hm : m.isEmpty
    · rw [if_pos hm]
      rw [List.isEmpty_iff] at hm
      subst hm
      simp
    · rw [if_neg hm]
      rw [pyDedup_mem, List.mem_flatten]
      constructor
      · rintro ⟨l, hl, hx⟩
        rw [List.mem_map] at hl
        obtain ⟨p, hp2, hpl⟩ := hl
        exact ⟨p, hp2, hpl ▸ hx⟩
      · rintro ⟨p, hp2, hx⟩
        exact ⟨p.2, List.mem_map.mpr ⟨p, hp2, rfl⟩, hx⟩

theorem claim_C4_witness :
    flatten_keys (.mapping [(.vint 1, [.vint 10, .vint 11]), (.vint 2, [.vint 12])]) =
      some ([.vint 1, .vint 2], some [.vint 10, .vint 11, .vint 12]) ∧
    (([.vint 1, .vint 2] : List PVal) =
      ([(PVal.vint 1, [PVal.vint 10, PVal.vint 11]), (PVal.vint 2, [PVal.vint 12])] :
        List (PVal × List PVal)).map Prod.fst ∧
    ∃ u, (some [.vint 10, .vint 11, .vint 12] : Option (List PVal)) = some u ∧ u.Nodup ∧
      (∀ x, x ∈ u ↔
        ∃ p ∈ [(PVal.vint 1, [PVal.vint 10, PVal.vint 11]), (PVal.vint 2, [PVal.vint 12])],
          x ∈ p.2)) :=
  ⟨rfl,
    (claim_C4_flatten_keys.1 [(.vint 1, [.vint 10, .vint 11]), (.vint 2, [.vint 12])]
      [.vint 1, .vint 2] (some [.vint 10, .vint 11, .vint 12]) rfl).1,
    (claim_C4_flatten_keys.1 [(.vint 1, [.vint 10, .vint 11]), (.vint 2, [.vint 12])]
      [.vint 1, .vint 2] (some [.vint 10, .vint 11, .vint 12]) rfl).2⟩

/-- C2: the `count()` rewrite.  For every registered model whose settings
define an aggregate column, requesting the bare `count()` aggregation
appends that column to the end of the group-by list and makes the
aggregate expression target nothing (`COUNT(column)` becomes
`GROUP BY column` with `COUNT()`); for any other aggregation function, or
a model with a null aggregate column, the group-by list does not receive
the column and the aggregation targets it as configured. -/
theorem claim_C2_count_rewrite :
    ∀ (m : TSDBModel) (gm gt manual : Bool) (agg : String),
    (∀ a, (model_query_settings m).aggregate = some a → agg = "count()" →
      get_data_groupby (model_query_settings m).groupby gm gt manual agg
          (model_query_settings m).aggregate =
        ((if gm then [(model_query_settings m).groupby] else []) ++
         (if gt then [if manual then "time_t" else "time"] else [])) ++ [a] ∧
      get_data_model_aggregate agg (model_query_settings m).aggregate = none ∧
      get_data_aggregations agg (model_query_settings m).aggregate =
        [.plain agg none "aggregate"]) ∧
    (agg ≠ "count()" ∨ (model_query_settings m).aggregate = none →
      get_data_groupby (model_query_settings m).groupby gm gt manual agg
          (model_query_settings m).aggregate =
        (if gm then [(model_query_settings m).groupby] else []) ++
        (if gt then [if manual then "time_t" else "time"] else []) ∧
      get_data_model_aggregate agg (model_query_settings m).aggregate =
        (model_query_settings m).aggregate ∧
      get_data_aggregations agg (model_query_settings m).aggregate =
        [.plain agg ((model_query_settings m).aggregate) "aggregate"]) := by
  intro m gm gt manual agg
  constructor
  · intro a ha hagg
    subst hagg
    unfold get_data_groupby get_data_aggregations get_data_model_aggregate
    rw [ha]
    refine ⟨by simp, by simp, by simp⟩
  · intro hcase
    unfold get_data_groupby get_data_aggregations get_data_model_aggregate
    rcases hcase with hne | hnone
    · exact ⟨by simp [hne], by simp [hne], by simp [hne]⟩
    · rw [hnone]
      exact ⟨by simp, by simp, by simp⟩

theorem claim_C2_witness :
    ((model_query_settings TSDBModel.frequent_issues_by_project).aggregate
      = some "group_id") ∧
    ("count()" : String) = "count()" ∧
    (get_data_groupby (model_query_settings TSDBModel.frequent_issues_by_project).groupby
        true true false "count()"
        (model_query_settings TSDBModel.frequent_issues_by_project).aggregate =
      ((if true then [(model_query_settings TSDBModel.frequent_issues_by_project).groupby]
        else []) ++
       (if true then [if false then "time_t" else "time"] else [])) ++ ["group_id"] ∧
      get_data_model_aggregate "count()"
        (model_query_settings TSDBModel.frequent_issues_by_project).aggregate = none ∧
      get_data_aggregations "count()"
        (model_query_settings TSDBModel.frequent_issues_by_project).aggregate =
        [.plain "count()" none "aggregate"]) :=
  ⟨rfl, rfl,
    (claim_C2_count_rewrite TSDBModel.frequent_issues_by_project true true false
      "count()").1 "group_id" rfl rfl⟩

/-- C8: for every call with a non-empty key set, the row limit passed to
the backend equals `min(10000, primaryKeyCount * bucketCount)` when the
planned series is (as the external bucket planner guarantees) a strictly
increasing arithmetic progression of `n ≥ 1` bucket starts at step
`rollup`: the effective query end `series[-1] + rollup` minus the
effective start `series[0]` is exactly `n * rollup`. -/
theorem claim_C8_limit (len_keys : Nat) (rollup : Nat) (n : Nat) (s0 : Int)
    (hr : 0 < rollup) (hn : 0 < n) :
    get_data_limit len_keys rollup
      ((List.range n).map (fun i => s0 + ((i * rollup : Nat) : Int))) =
      some (min 10000 ((len_keys * n : Nat) : Int)) := by
  cases n with
  | zero => exact absurd hn (by simp)
  | succ m =>
    have hhead : ((List.range (m + 1)).map
        (fun i => s0 + ((i * rollup : Nat) : Int))).head? = some s0 := by
      rw [List.range_succ_eq_map]
      simp
    have hlast : ((List.range (m + 1)).map
        (fun i => s0 + ((i * rollup : Nat) : Int))).getLast? =
        some (s0 + ((m * rollup : Nat) : Int)) := by
      rw [List.range_succ, List.map_append]
      simp
    unfold get_data_limit
    rw [hhead, hlast]
    have htr : pyTrunc ((len_keys : ℚ) *
        (((((s0 + ((m * rollup : Nat) : Int)) + (rollup : Int)) - s0 : Int) : ℚ) / (rollup : ℚ)))
        = ((len_keys * (m + 1) : Nat) : Int) := by
      have hr0 : (rollup : ℚ) ≠ 0 := Nat.cast_ne_zero.mpr (Nat.pos_iff_ne_zero.mp hr)
      have harg : ((len_keys : ℚ) *
          (((((s0 + ((m * rollup : Nat) : Int)) + (rollup : Int)) - s0 : Int) : ℚ) / (rollup : ℚ)))
          = ((len_keys * (m + 1) : Nat) : ℚ) := by
        push_cast
        field_simp
        ring
      rw [harg]
      unfold pyTrunc
      rw [if_pos (by positivity)]
      exact_mod_cast Int.floor_natCast (len_keys * (m + 1))
    show some (min 10000 (pyTrunc _)) = _
    rw [htr]

theorem claim_C8_witness :
    (0 : Nat) < 10 ∧ (0 : Nat) < 3 ∧
    get_data_limit 2 10 ((List.range 3).map (fun i => (100 : Int) + ((i * 10 : Nat) : Int))) =
      some (min 10000 ((2 * 3 : Nat) : Int)) :=
  ⟨by decide, by decide, claim_C8_limit 2 10 3 100 (by decide) (by decide)⟩

/-- C9: for exactly the three models `key_total_received`,
`key_total_rejected` and `key_total_blacklisted`, `get_data` first
replaces the caller's keys by the deduplicated set of their integer
conversions (duplicates and string-typed keys collapse to distinct ints;
iterating a mapping iterates its primary keys; a non-convertible key
raises) before any normalization or query building; for every other model
the keys argument is used exactly as supplied. -/
theorem claim_C9_key_totals_normalization :
    ∀ (model : TSDBModel) (keys : KeysArg),
    (model ∈ key_total_models →
      (∀ ks is, (keys = KeysArg.seq ks ∨ keys = KeysArg.set ks) →
        ks.mapM pyInt = some is →
        normalize_key_totals model keys = some (.seq ((pyDedup is).map .vint)) ∧
        (pyDedup is).Nodup ∧ (∀ x, x ∈ pyDedup is ↔ x ∈ is)) ∧
      (∀ m is, keys = KeysArg.mapping m → (m.map Prod.fst).mapM pyInt = some is →
        normalize_key_totals model keys = some (.seq ((pyDedup is).map .vint)) ∧
        (pyDedup is).Nodup ∧ (∀ x, x ∈ pyDedup is ↔ x ∈ is)) ∧
      (∀ ks, (keys = KeysArg.seq ks ∨ keys = KeysArg.set ks) →
        ks.mapM pyInt = none → normalize_key_totals model keys = none)) ∧
    (model ∉ key_total_models → normalize_key_totals model keys = some keys) := by
  intro model keys
  constructor
  · intro hmem
    refine ⟨?_, ?_, ?_⟩
    · intro ks is hk hmap
      rcases hk with hk | hk <;> subst hk
      · refine ⟨?_, pyDedup_nodup is, fun x => pyDedup_mem is x⟩
        unfold normalize_key_totals
        rw [if_pos hmem]
        show (ks.mapM pyInt).map (fun js => KeysArg.seq ((pyDedup js).map PVal.vint)) = _
        rw [hmap]
        rfl
      · refine ⟨?_, pyDedup_nodup is, fun x => pyDedup_mem is x⟩
        unfold normalize_key_totals
        rw [if_pos hmem]
        show (ks.mapM pyInt).map (fun js => KeysArg.seq ((pyDedup js).map PVal.vint)) = _
        rw [hmap]
        rfl
    · intro m is hk hmap
      subst hk
      refine ⟨?_, pyDedup_nodup is, fun x => pyDedup_mem is x⟩
      unfold normalize_key_totals
      rw [if_pos hmem]
      show ((m.map Prod.fst).mapM pyInt).map
        (fun js => KeysArg.seq ((pyDedup js).map PVal.vint)) = _
      rw [hmap]
      rfl
    · intro ks hk hmap
      rcases hk with hk | hk <;> subst hk
      · unfold normalize_key_totals
        rw [if_pos hmem]
        show (ks.mapM pyInt).map (fun js => KeysArg.seq ((pyDedup js).map PVal.vint)) = _
        rw [hmap]
        rfl
      · unfold normalize_key_totals
        rw [if_pos hmem]
        show (ks.mapM pyInt).map (fun js => KeysArg.seq ((pyDedup js).map PVal.vint)) = _
        rw [hmap]
        rfl
  · intro hmem
    unfold normalize_key_totals
    rw [if_neg hmem]

theorem claim_C9_witness :
    TSDBModel.key_total_received ∈ key_total_models ∧
    KeysArg.seq [.vint 5, .vint 5, .vint 6] = KeysArg.seq [.vint 5, .vint 5, .vint 6] ∧
    ([PVal.vint 5, PVal.vint 5, PVal.vint 6].mapM pyInt = some [5, 5, 6]) ∧
    (normalize_key_totals TSDBModel.key_total_received
        (.seq [.vint 5, .vint 5, .vint 6]) =
      some (.seq ((pyDedup [5, 5, 6]).map .vint)) ∧
      (pyDedup [(5 : Int), 5, 6]).Nodup ∧
      (∀ x, x ∈ pyDedup [(5 : Int), 5, 6] ↔ x ∈ [(5 : Int), 5, 6])) :=
  ⟨by decide, rfl, rfl,
    ((claim_C9_key_totals_normalization TSDBModel.key_total_received
        (.seq [.vint 5, .vint 5, .vint 6])).1 (by decide)).1
      [.vint 5, .vint 5, .vint 6] [5, 5, 6] (Or.inl rfl) rfl⟩

theorem alookup_overwrite (k : String) (v : List PVal) :
    ∀ (m : List (String × List PVal)) (g : String),
    alookup (m.map (fun p => if p.1 = k then (k, v) else p)) g =
      if g = k then ((alookup m k).map (fun _ => v)) else alookup m g := by
  intro m
  induction m with
  | nil => intro g; by_cases hg : g = k <;> simp [alookup, hg]
  | cons p rest ih =>
    intro g
    by_cases hpk : p.1 = k <;> by_cases hg : g = k <;> by_cases hpg : p.1 = g <;>
      simp_all [alookup, List.map_cons]

theorem alookup_dict_set (m : List (String × List PVal)) (k : String) (v : List PVal)
    (g : String) : alookup (dict_set m k v) g = if g = k then some v else alookup m g := by
  unfold dict_set
  by_cases hc : (alookup m k).isSome = true
  · rw [if_pos hc, alookup_overwrite]
    by_cases hg : g = k
    · rw [if_pos hg, if_pos hg]
      cases h : alookup m k with
      | none => rw [h] at hc; simp at hc
      | some w => simp
    · rw [if_neg hg, if_neg hg]
  · rw [if_neg hc, alookup_append]
    by_cases hg : g = k
    · subst hg
      cases h : alookup m g with
      | some w => rw [h] at hc; simp at hc
      | none => simp [alookup]
    · cases h : alookup m g with
      | some w => simp [hg]
      | none =>
        have hkg : ¬ k = g := fun hh => hg hh.symm
        simp [alookup, hkg, hg]

theorem zerofill_empty_node (fk : List (String × List PVal)) (g : String) (gs : List String)
    (h : alookup fk g = some []) : zerofill fk (g :: gs) (.node []) = some (.node []) := by
  rw [zerofill_cons_node, h]
  cases gs with
  | nil => rfl
  | cons a b => rfl

theorem trim_empty_node (groups : List String) (K : PyKeys) :
    trim groups K (.node []) = .node [] := by
  cases groups with
  | nil => rfl
  | cons g gs => rfl

theorem unnest_empty_node (al : PVal) : unnest al (.node []) = .node [] := by
  simp [unnest, unnestEntries]

theorem alookup_build_keys_map_groupby (g : String) (aggc : Option String)
    (flat : List PVal × Option (List PVal)) :
    alookup (build_keys_map g aggc flat) g = some flat.1 := by
  unfold build_keys_map
  cases aggc with
  | none => simp [alookup]
  | some a =>
    cases hf : flat.2 with
    | none => simp [alookup]
    | some sec => simp [alookup]

theorem build_keys_map_flat (g : String) (aggc : Option String) (l : List PVal) :
    build_keys_map g aggc (l, none) = [(g, l)] := by
  unfold build_keys_map
  cases aggc with
  | none => rfl
  | some a => rfl

theorem groupby_not_special (m : TSDBModel) :
    (model_query_settings m).groupby ≠ "environment" ∧
    (model_query_settings m).groupby ≠ "time" ∧
    (model_query_settings m).groupby ≠ "time_t" := by
  cases m <;> simp [model_query_settings]

theorem aggregate_not_special (m : TSDBModel) (a : String)
    (ha : (model_query_settings m).aggregate = some a) :
    a ≠ "time" ∧ a ≠ "time_t" ∧ a ≠ (model_query_settings m).groupby := by
  cases m <;> simp only [model_query_settings] at ha ⊢ <;>
    (try exact Option.noConfusion ha) <;>
    (injection ha with ha2) <;> subst ha2 <;> exact ⟨by decide, by decide, by decide⟩

theorem mapM_pyInt_ne_nil (k : PVal) (ks : List PVal) (is : List Int)
    (h : (k :: ks).mapM pyInt = some is) : is ≠ [] := by
  rw [List.mapM_cons] at h
  cases hk : pyInt k with
  | none => rw [hk] at h; simp at h
  | some i =>
    rw [hk] at h
    cases hrest : ks.mapM pyInt with
    | none => rw [hrest] at h; simp at h
    | some rest =>
      rw [hrest] at h
      simp only [Option.pure_def, Option.bind_eq_bind, Option.some_bind,
        Option.some.injEq] at h
      rw [← h]
      simp

theorem zerofill_head_missing (fk : List (String × List PVal)) (g : String) (gs : List String)
    (h : alookup fk g = none) : ∀ t, zerofill fk (g :: gs) t = none := by
  intro t
  cases t with
  | leaf v => rfl
  | node es => rw [zerofill_cons_node, h]

theorem fillKeys_ne_nil (fill : PTree) (es : List (PVal × PTree)) (ks : List PVal)
    (hne : ks ≠ []) : fillKeys fill es ks ≠ [] := by
  intro hc
  cases ks with
  | nil => exact absurd rfl hne
  | cons k0 ks' =>
    have hk : hasKey (fillKeys fill es (k0 :: ks')) k0 :=
      (hasKey_fillKeys fill (k0 :: ks') es k0).2 (Or.inr (by simp))
    rw [hc] at hk
    unfold hasKey at hk
    simp [alookup] at hk

theorem zerofill_all_values_fail (fk : List (String × List PVal)) (g g2 : String)
    (gs2 : List String) (t : PTree) (ks : List PVal)
    (hfk : alookup fk g = some ks) (hne : ks ≠ [])
    (hfail : ∀ t', zerofill fk (g2 :: gs2) t' = none) :
    zerofill fk (g :: g2 :: gs2) t = none := by
  cases t with
  | leaf v => rfl
  | node es =>
    rw [zerofill_cons_node, hfk]
    show Option.map PTree.node
      (mapValsOpt (zerofill fk (g2 :: gs2)) (fillKeys (.node []) es ks)) = none
    cases hf : fillKeys (.node []) es ks with
    | nil => exact absurd hf (fillKeys_ne_nil _ es ks hne)
    | cons p rest =>
      have hp : zerofill fk (g2 :: gs2) p.2 = none := hfail p.2
      simp [mapValsOpt, hp]

theorem empty_tail_finish (km2 : List (String × List PVal)) (groupby : List String)
    (K : PyKeys) (c : Prop) [Decidable c]
    (hz : zerofill km2 groupby (.node []) = some (.node [])) :
    ((zerofill km2 groupby (.node [])).bind
      fun a => if c then some (unnest (.vstr "aggregate") (trim groupby K a))
               else some (trim groupby K a)) = some (.node []) := by
  rw [hz]
  show (if c then some (unnest (.vstr "aggregate") (trim groupby K (.node [])))
        else some (trim groupby K (.node []))) = some (.node [])
  rw [trim_empty_node]
  by_cases hc : c
  · rw [if_pos hc, unnest_empty_node]
  · rw [if_neg hc]

theorem get_data_groupby_cons (G : String) (gt manual : Bool) (agg : String)
    (ma : Option String) :
    ∃ rest, get_data_groupby G true gt manual agg ma = G :: rest := by
  unfold get_data_groupby
  exact ⟨_, rfl⟩

theorem keys_map2_groupby_lookup (model : TSDBModel) (env : Option (List PVal))
    (gt : Bool) (series : List Int) (sec : Option (List PVal)) :
    alookup
      (if gt = true then
        dict_set
          (match env with
           | some envs => dict_set (build_keys_map (model_query_settings model).groupby
               (model_query_settings model).aggregate ([], sec)) "environment" envs
           | none => build_keys_map (model_query_settings model).groupby
               (model_query_settings model).aggregate ([], sec))
          (if model = TSDBModel.group_profiling ∨ model = TSDBModel.users_affected_by_profile_group
           then "time_t" else "time")
          (series.map .vint)
       else
        match env with
        | some envs => dict_set (build_keys_map (model_query_settings model).groupby
            (model_query_settings model).aggregate ([], sec)) "environment" envs
        | none => build_keys_map (model_query_settings model).groupby
            (model_query_settings model).aggregate ([], sec))
      (model_query_settings model).groupby = some [] := by
  have htcol : (model_query_settings model).groupby ≠
      (if model = TSDBModel.group_profiling ∨ model = TSDBModel.users_affected_by_profile_group
       then "time_t" else "time") := by
    by_cases hmm : model = TSDBModel.group_profiling ∨
        model = TSDBModel.users_affected_by_profile_group
    · rw [if_pos hmm]; exact (groupby_not_special model).2.2
    · rw [if_neg hmm]; exact (groupby_not_special model).2.1
  have henv : alookup
      (match env with
       | some envs => dict_set (build_keys_map (model_query_settings model).groupby
           (model_query_settings model).aggregate ([], sec)) "environment" envs
       | none => build_keys_map (model_query_settings model).groupby
           (model_query_settings model).aggregate ([], sec))
      (model_query_settings model).groupby = some [] := by
    cases env with
    | none => exact alookup_build_keys_map_groupby _ _ _
    | some envs =>
      rw [alookup_dict_set, if_neg (groupby_not_special model).1]
      exact alookup_build_keys_map_groupby _ _ _
  by_cases hgt : gt = true
  · rw [if_pos hgt, alookup_dict_set, if_neg htcol]
    exact henv
  · rw [if_neg hgt]
    exact henv

theorem get_data_empty_aux (executor : SnubaQueryCall → PTree) (model : TSDBModel)
    (keys0 keys1 : KeysArg) (rr : Option Nat) (rollup : Nat) (series : List Int)
    (env : Option (List PVal)) (agg : String) (gm gt : Bool) (conds : List Cond) (uc : Bool)
    (hn : normalize_key_totals model keys0 = some keys1)
    (h1 : keys1 = KeysArg.mapping [] ∨ keys1 = KeysArg.seq [] ∨ keys1 = KeysArg.set [])
    (hser : series ≠ [])
    (hflag : gm = true ∨ (gt = false ∧ agg ≠ "count()")) :
    get_data executor model keys0 rr rollup series env agg gm gt conds uc
      = some (.node []) := by
  have h0 : series.head? = some (series.head hser) := List.head?_eq_head hser
  have hl : series.getLast? = some (series.getLast hser) :=
    List.getLast?_eq_getLast series hser
  obtain ⟨lim, hlim⟩ : ∃ lim, get_data_limit keys1.len rollup series = some lim := by
    unfold get_data_limit
    rw [h0, hl]
    exact ⟨_, rfl⟩
  rcases h1 with h1 | h1 | h1 <;> subst h1 <;>
    simp only [get_data, hn, Option.bind_eq_bind, Option.some_bind, flatten_keys,
      h0, hl, hlim, KeysArg.isNonempty, List.isEmpty_nil, Bool.not_true,
      Bool.false_eq_true, if_false, List.map_nil] <;>
  (by_cases hgm : gm = true
   · subst hgm
     obtain ⟨rest, hgb⟩ := get_data_groupby_cons (model_query_settings model).groupby gt
       (decide (model = TSDBModel.group_profiling ∨
         model = TSDBModel.users_affected_by_profile_group)) agg
       (model_query_settings model).aggregate
     rw [hgb]
     exact empty_tail_finish _ _ _ _
       (zerofill_empty_node _ _ rest (keys_map2_groupby_lookup model env gt series _))
   · have hgtagg : gt = false ∧ agg ≠ "count()" := hflag.resolve_left hgm
     have hgmf : gm = false := by
       cases gm
       · rfl
       · exact absurd rfl hgm
     subst hgmf
     rcases hgtagg with ⟨hgtf, hagg⟩
     subst hgtf
     have hgb : get_data_groupby (model_query_settings model).groupby false false
         (decide (model = TSDBModel.group_profiling ∨
           model = TSDBModel.users_affected_by_profile_group)) agg
         (model_query_settings model).aggregate = [] := by
       unfold get_data_groupby
       simp [hagg]
     rw [hgb]
     exact empty_tail_finish _ _ _ _ (zerofill_nil _ _))

theorem normalize_empty (model : TSDBModel) (keys0 : KeysArg)
    (h : keys0 = KeysArg.mapping [] ∨ keys0 = KeysArg.seq [] ∨ keys0 = KeysArg.set []) :
    ∃ keys1, normalize_key_totals model keys0 = some keys1 ∧
      (keys1 = KeysArg.mapping [] ∨ keys1 = KeysArg.seq [] ∨ keys1 = KeysArg.set []) := by
  unfold normalize_key_totals
  by_cases hm : model ∈ key_total_models
  · rw [if_pos hm]
    rcases h with h | h | h <;> subst h <;> exact ⟨.seq [], rfl, Or.inr (Or.inl rfl)⟩
  · rw [if_neg hm]
    exact ⟨keys0, rfl, h⟩

/-- C5: for every facade operation and every registered model, when the
primary key set is empty the backend executor is never invoked — the
result below is a constant independent of the universally quantified
`executor` — and the operation returns the empty result structure (the
empty mapping, after the facade's final shape transform).  The planned
series must be non-empty (`len(series) >= 1` is the external bucket
planner's invariant; `series[0]` is read before the key check). -/
theorem claim_C5_empty_keys_short_circuit :
    ∀ (executor : SnubaQueryCall → PTree) (model : TSDBModel) (keys0 : KeysArg)
      (rr : Option Nat) (rollup : Nat) (series : List Int)
      (envs : Option (List PVal)) (envid : Option PVal) (conds : List Cond)
      (uc : Bool) (lim : Nat),
    (keys0 = KeysArg.mapping [] ∨ keys0 = KeysArg.seq [] ∨ keys0 = KeysArg.set []) →
    series ≠ [] →
    get_range executor model keys0 rr rollup series envs conds uc = some [] ∧
    get_distinct_counts_series executor model keys0 rr rollup series envid = some [] ∧
    get_distinct_counts_totals executor model keys0 rr rollup series envid uc
      = some (.node []) ∧
    get_distinct_counts_union executor model keys0 rr rollup series envid
      = some (.node []) ∧
    get_most_frequent executor model keys0 rr rollup series lim envid = some [] ∧
    get_most_frequent_series executor model keys0 rr rollup series lim envid = some [] ∧
    get_frequency_series executor model keys0 rr rollup series envid = some [] ∧
    get_frequency_totals executor model keys0 rr rollup series envid = some (.node []) := by
  intro executor model keys0 rr rollup series envs envid conds uc lim hk hser
  obtain ⟨keys1, hn, h1⟩ := normalize_empty model keys0 hk
  refine ⟨?_, ?_, ?_, ?_, ?_, ?_, ?_, ?_⟩
  · have hgd := get_data_empty_aux executor model keys0 keys1 rr rollup series envs
      (if (model_query_settings model).dataset = Dataset.outcomes then "sum" else "count()")
      true true conds uc hn h1 hser (Or.inl rfl)
    simp only [get_range, hgd, Option.bind_eq_bind, Option.some_bind]
    rfl
  · have hgd := get_data_empty_aux executor model keys0 keys1 rr rollup series
      (envList envid) "uniq" true true [] false hn h1 hser (Or.inl rfl)
    simp only [get_distinct_counts_series, hgd, Option.bind_eq_bind, Option.some_bind]
    rfl
  · exact get_data_empty_aux executor model keys0 keys1 rr rollup series
      (envList envid) "uniq" true false [] uc hn h1 hser (Or.inl rfl)
  · exact get_data_empty_aux executor model keys0 keys1 rr rollup series
      (envList envid) "uniq" false false [] false hn h1 hser (Or.inr ⟨rfl, by decide⟩)
  · have hgd := get_data_empty_aux executor model keys0 keys1 rr rollup series
      (envList envid) ("topK(" ++ toString lim ++ ")") true false [] false hn h1 hser
      (Or.inl rfl)
    simp only [get_most_frequent, hgd, Option.bind_eq_bind, Option.some_bind]
    rfl
  · have hgd := get_data_empty_aux executor model keys0 keys1 rr rollup series
      (envList envid) ("topK(" ++ toString lim ++ ")") true true [] false hn h1 hser
      (Or.inl rfl)
    simp only [get_most_frequent_series, hgd, Option.bind_eq_bind, Option.some_bind]
    rfl
  · have hgd := get_data_empty_aux executor model keys0 keys1 rr rollup series
      (envList envid) "count()" true true [] false hn h1 hser (Or.inl rfl)
    simp only [get_frequency_series, hgd, Option.bind_eq_bind, Option.some_bind]
    rfl
  · exact get_data_empty_aux executor model keys0 keys1 rr rollup series
      (envList envid) "count()" true false [] false hn h1 hser (Or.inl rfl)

theorem claim_C5_witness :
    (KeysArg.seq [] = KeysArg.mapping [] ∨ KeysArg.seq [] = KeysArg.seq [] ∨
      KeysArg.seq [] = KeysArg.set []) ∧
    ([(0 : Int)] ≠ []) ∧
    (get_range (fun _ => PTree.node []) .project (.seq []) none 3600 [0] none [] false
        = some [] ∧
      get_distinct_counts_series (fun _ => PTree.node []) .project (.seq []) none 3600 [0]
        none = some [] ∧
      get_distinct_counts_totals (fun _ => PTree.node []) .project (.seq []) none 3600 [0]
        none false = some (.node []) ∧
      get_distinct_counts_union (fun _ => PTree.node []) .project (.seq []) none 3600 [0]
        none = some (.node []) ∧
      get_most_frequent (fun _ => PTree.node []) .project (.seq []) none 3600 [0] 10
        none = some [] ∧
      get_most_frequent_series (fun _ => PTree.node []) .project (.seq []) none 3600 [0] 10
        none = some [] ∧
      get_frequency_series (fun _ => PTree.node []) .project (.seq []) none 3600 [0]
        none = some [] ∧
      get_frequency_totals (fun _ => PTree.node []) .project (.seq []) none 3600 [0]
        none = some (.node [])) :=
  ⟨Or.inr (Or.inl rfl), by decide,
    claim_C5_empty_keys_short_circuit (fun _ => PTree.node []) .project (.seq []) none
      3600 [0] none none [] false 10 (Or.inr (Or.inl rfl)) (by decide)⟩



theorem get_data_groupby_count (G : String) (gt : Bool) (P : Prop) [inst : Decidable P]
    (a : String) :
    get_data_groupby G true gt (decide P) "count()" (some a) =
      G :: ((if gt = true then [if P then "time_t" else "time"] else []) ++ [a]) := by
  by_cases hp : P <;> by_cases hgt : gt = true <;>
    simp [get_data_groupby, hp, hgt]

theorem zerofill_groupcol_missing (km1 : List (String × List PVal)) (G tc a : String)
    (sm l : List PVal) (gt : Bool)
    (hG : alookup km1 G = some l) (hl : l ≠ [])
    (ha1 : alookup km1 a = none) (hGtc : G ≠ tc) (hatc : a ≠ tc) (hsm : sm ≠ []) :
    ∀ t, zerofill (if gt = true then dict_set km1 tc sm else km1)
      (G :: ((if gt = true then [tc] else []) ++ [a])) t = none := by
  intro t
  by_cases hgt : gt = true
  · rw [if_pos hgt, if_pos hgt]
    simp only [List.cons_append, List.nil_append]
    have hG2 : alookup (dict_set km1 tc sm) G = some l := by
      rw [alookup_dict_set, if_neg hGtc, hG]
    have ha2 : alookup (dict_set km1 tc sm) a = none := by
      rw [alookup_dict_set, if_neg hatc, ha1]
    have htc2 : alookup (dict_set km1 tc sm) tc = some sm := by
      rw [alookup_dict_set, if_pos rfl]
    have hfa : ∀ u, zerofill (dict_set km1 tc sm) [a] u = none :=
      zerofill_head_missing _ _ _ ha2
    have hftc : ∀ u, zerofill (dict_set km1 tc sm) (tc :: [a]) u = none := by
      intro u
      exact zerofill_all_values_fail _ _ _ _ u _ htc2 hsm hfa
    exact zerofill_all_values_fail _ _ _ _ t _ hG2 hl hftc
  · rw [if_neg hgt, if_neg hgt]
    simp only [List.nil_append]
    have hfa : ∀ u, zerofill km1 [a] u = none := zerofill_head_missing _ _ _ ha1
    exact zerofill_all_values_fail _ _ _ _ t _ hG hl hfa

theorem get_data_count_flat_none (executor : SnubaQueryCall → PTree) (model : TSDBModel)
    (a : String) (keys0 : KeysArg) (l : List PVal) (rr : Option Nat) (rollup : Nat)
    (series : List Int) (env : Option (List PVal)) (gt : Bool)
    (conds : List Cond) (uc : Bool)
    (ha : (model_query_settings model).aggregate = some a)
    (hn : normalize_key_totals model keys0 = some (.seq l) ∨
          normalize_key_totals model keys0 = some (.set l))
    (hl : l ≠ [])
    (henv2 : env = none ∨ a ≠ "environment") :
    get_data executor model keys0 rr rollup series env "count()" true gt conds uc = none := by
  obtain ⟨hat, hatt, hag⟩ := aggregate_not_special model a ha
  have hga : ¬ (model_query_settings model).groupby = a := fun h => hag h.symm
  cases series with
  | nil =>
    rcases hn with hn | hn <;>
      simp only [get_data, hn, Option.bind_eq_bind, Option.some_bind, flatten_keys,
        List.head?_nil, Option.none_bind]
  | cons s ss =>
    have hnn : (s :: ss) ≠ ([] : List Int) := by simp
    have h0 : (s :: ss).head? = some s := rfl
    have hlast : (s :: ss).getLast? = some ((s :: ss).getLast hnn) :=
      List.getLast?_eq_getLast (s :: ss) hnn
    have hne : ∀ (kk : KeysArg), kk = .seq l ∨ kk = .set l → kk.isNonempty = true := by
      intro kk hkk
      rcases hkk with hkk | hkk <;> subst hkk <;>
        simp [KeysArg.isNonempty, List.isEmpty_iff, hl]
    obtain ⟨lim, hlim⟩ : ∃ lim,
        get_data_limit (KeysArg.seq l).len rollup (s :: ss) = some lim := by
      unfold get_data_limit
      rw [h0, hlast]
      exact ⟨_, rfl⟩
    obtain ⟨lim2, hlim2⟩ : ∃ lim2,
        get_data_limit (KeysArg.set l).len rollup (s :: ss) = some lim2 := by
      unfold get_data_limit
      rw [h0, hlast]
      exact ⟨_, rfl⟩
    have hsm : (s :: ss).map PVal.vint ≠ [] := by simp
    have hGtc : (model_query_settings model).groupby ≠
        (if model = TSDBModel.group_profiling ∨ model = TSDBModel.users_affected_by_profile_group
         then "time_t" else "time") := by
      by_cases hmm : model = TSDBModel.group_profiling ∨
          model = TSDBModel.users_affected_by_profile_group
      · rw [if_pos hmm]; exact (groupby_not_special model).2.2
      · rw [if_neg hmm]; exact (groupby_not_special model).2.1
    have hatc : a ≠
        (if model = TSDBModel.group_profiling ∨ model = TSDBModel.users_affected_by_profile_group
         then "time_t" else "time") := by
      by_cases hmm : model = TSDBModel.group_profiling ∨
          model = TSDBModel.users_affected_by_profile_group
      · rw [if_pos hmm]; exact hatt
      · rw [if_neg hmm]; exact hat
    cases env with
    | none =>
      have hG1 : alookup (build_keys_map (model_query_settings model).groupby (some a)
          ((l, none) : List PVal × Option (List PVal))) (model_query_settings model).groupby
          = some l := by
        rw [build_keys_map_flat]
        simp [alookup]
      have ha1 : alookup (build_keys_map (model_query_settings model).groupby (some a)
          ((l, none) : List PVal × Option (List PVal))) a = none := by
        rw [build_keys_map_flat]
        simp [alookup, hga]
      have hz := zerofill_groupcol_missing _ _ _ _ _ _ gt hG1 hl ha1 hGtc hatc hsm
      rcases hn with hn | hn <;>
        simp only [get_data, hn, Option.bind_eq_bind, Option.some_bind, flatten_keys,
          h0, hlast, hlim, hlim2, ha, hne _ (Or.inl rfl), hne _ (Or.inr rfl), if_true,
          get_data_groupby_count, hz, Option.none_bind]
    | some envs =>
      have hane : a ≠ "environment" := by
        rcases henv2 with h | h
        · exact Option.noConfusion h
        · exact h
      have hG1 : alookup (dict_set (build_keys_map (model_query_settings model).groupby (some a)
          ((l, none) : List PVal × Option (List PVal))) "environment" envs)
          (model_query_settings model).groupby = some l := by
        rw [alookup_dict_set, if_neg (groupby_not_special model).1, build_keys_map_flat]
        simp [alookup]
      have ha1 : alookup (dict_set (build_keys_map (model_query_settings model).groupby (some a)
          ((l, none) : List PVal × Option (List PVal))) "environment" envs) a = none := by
        rw [alookup_dict_set, if_neg hane, build_keys_map_flat]
        simp [alookup, hga]
      have hz := zerofill_groupcol_missing _ _ _ _ _ _ gt hG1 hl ha1 hGtc hatc hsm
      rcases hn with hn | hn <;>
        simp only [get_data, hn, Option.bind_eq_bind, Option.some_bind, flatten_keys,
          h0, hlast, hlim, hlim2, ha, hne _ (Or.inl rfl), hne _ (Or.inr rfl), if_true,
          get_data_groupby_count, hz, Option.none_bind]

theorem get_data_count_flat_top (executor : SnubaQueryCall → PTree) (model : TSDBModel)
    (a : String) (keys0 : KeysArg) (l : List PVal) (rr : Option Nat) (rollup : Nat)
    (series : List Int) (eid : Option PVal) (gt : Bool) (conds : List Cond) (uc : Bool)
    (ha : (model_query_settings model).aggregate = some a)
    (hk : keys0 = KeysArg.seq l ∨ keys0 = KeysArg.set l) (hl : l ≠ [])
    (henv : eid = none ∨ a ≠ "environment") :
    get_data executor model keys0 rr rollup series (envList eid) "count()" true gt conds uc
      = none := by
  have henv2 : envList eid = none ∨ a ≠ "environment" := by
    rcases henv with h | h
    · subst h; exact Or.inl rfl
    · exact Or.inr h
  by_cases hkt : model ∈ key_total_models
  · cases hm : l.mapM pyInt with
    | none =>
      have hn0 : normalize_key_totals model keys0 = none := by
        rcases hk with hk | hk <;> subst hk <;>
          (unfold normalize_key_totals
           rw [if_pos hkt]
           show (l.mapM pyInt).map (fun is => KeysArg.seq ((pyDedup is).map PVal.vint)) = none
           rw [hm]
           rfl)
      simp only [get_data, hn0, Option.bind_eq_bind, Option.none_bind]
    | some js =>
      have hn0 : normalize_key_totals model keys0 =
          some (.seq ((pyDedup js).map PVal.vint)) := by
        rcases hk with hk | hk <;> subst hk <;>
          (unfold normalize_key_totals
           rw [if_pos hkt]
           show (l.mapM pyInt).map (fun is => KeysArg.seq ((pyDedup is).map PVal.vint)) =
             some (KeysArg.seq ((pyDedup js).map PVal.vint))
           rw [hm]
           rfl)
      have hjs : js ≠ [] := by
        cases l with
        | nil => exact absurd rfl hl
        | cons k ks => exact mapM_pyInt_ne_nil k ks js hm
      have hlne : ((pyDedup js).map PVal.vint) ≠ [] := by
        intro hc
        rw [List.map_eq_nil_iff] at hc
        exact pyDedup_ne_nil js hjs hc
      exact get_data_count_flat_none executor model a keys0 _ rr rollup series _ gt conds uc
        ha (Or.inl hn0) hlne henv2
  · have hn0 : normalize_key_totals model keys0 = some keys0 := by
      unfold normalize_key_totals
      rw [if_neg hkt]
    have hn : normalize_key_totals model keys0 = some (.seq l) ∨
        normalize_key_totals model keys0 = some (.set l) := by
      rcases hk with hk | hk
      · exact Or.inl (hk ▸ hn0)
      · exact Or.inr (hk ▸ hn0)
    exact get_data_count_flat_none executor model a keys0 l rr rollup series _ gt conds uc
      ha hn hl henv2

/-- C10: for every model whose settings define an aggregate column, the
`count()` facades `get_frequency_totals` and `get_frequency_series` raise on a
non-empty flat (sequence or set) key collection — amended: provided no
environment filter is supplied or the aggregate column is not "environment"
(otherwise the environment entry of the filter-key map feeds zerofill's lookup
of the aggregate grouping level and the call succeeds). -/
theorem claim_C10_count_flat_raises (executor : SnubaQueryCall → PTree) (model : TSDBModel)
    (a : String) (keys0 : KeysArg) (l : List PVal) (rr : Option Nat) (rollup : Nat)
    (series : List Int) (eid : Option PVal)
    (ha : (model_query_settings model).aggregate = some a)
    (hk : keys0 = KeysArg.seq l ∨ keys0 = KeysArg.set l) (hl : l ≠ [])
    (henv : eid = none ∨ a ≠ "environment") :
    get_frequency_totals executor model keys0 rr rollup series eid = none ∧
    get_frequency_series executor model keys0 rr rollup series eid = none := by
  constructor
  · unfold get_frequency_totals
    exact get_data_count_flat_top executor model a keys0 l rr rollup series eid false [] false
      ha hk hl henv
  · unfold get_frequency_series
    rw [get_data_count_flat_top executor model a keys0 l rr rollup series eid true [] false
      ha hk hl henv]
    rfl

theorem claim_C10_witness :
    (model_query_settings TSDBModel.users_affected_by_group).aggregate
        = some "tags[sentry:user]" ∧
    (KeysArg.seq [PVal.vint 1] = KeysArg.seq [PVal.vint 1] ∨
      KeysArg.seq [PVal.vint 1] = KeysArg.set [PVal.vint 1]) ∧
    ([PVal.vint 1] ≠ ([] : List PVal)) ∧
    ((none : Option PVal) = none ∨ "tags[sentry:user]" ≠ "environment") ∧
    (get_frequency_totals (fun _ => PTree.node []) TSDBModel.users_affected_by_group
        (KeysArg.seq [PVal.vint 1]) none 3600 [0] none = none ∧
      get_frequency_series (fun _ => PTree.node []) TSDBModel.users_affected_by_group
        (KeysArg.seq [PVal.vint 1]) none 3600 [0] none = none) :=
  ⟨rfl, Or.inl rfl, by decide, Or.inl rfl,
    claim_C10_count_flat_raises (fun _ => PTree.node []) TSDBModel.users_affected_by_group
      "tags[sentry:user]" (KeysArg.seq [PVal.vint 1]) [PVal.vint 1] none 3600 [0] none
      rfl (Or.inl rfl) (by decide) (Or.inl rfl)⟩

/-- The original C10 is refuted at `frequent_environments_by_group`, whose
aggregate column is "environment": with an environment filter supplied, the
non-empty flat-keys `count()` totals call returns a result instead of raising. -/
theorem claim_C10_counterexample :
    (model_query_settings TSDBModel.frequent_environments_by_group).aggregate.isSome = true ∧
    (get_frequency_totals (fun _ => PTree.node [])
      TSDBModel.frequent_environments_by_group (KeysArg.seq [PVal.vint 1]) none 3600 [0]
      (some (PVal.vint 5))).isSome = true := by
  constructor
  · rfl
  · rfl
